import Mathlib

/-!
# Cache upgrade controller of `flutter_service_worker.js`

A shallow embedding of the `activate`, `fetch` and `message` listeners of the service worker
and of `downloadOffline`, with the properties of the cache upgrade they implement.

Modelling conventions.

* JavaScript strings are lists of characters (`Str`).  URLs and origins are strings; they
  are ASCII, so that positions in code units and in characters agree.
* `RESOURCES` and the parsed previous manifest are plain objects with string values.  They
  are represented by the list of their own properties (a later duplicate wins) and read
  through `jsGet`, which follows the prototype chain to `Object.prototype` as the expression
  `RESOURCES[key]` does.
* A `Cache` is the insertion-ordered list of its entries, each with the URL of its request
  as it was stored.  `CacheStorage` holds the three named caches of the worker; `none`
  means that the cache does not exist, and `caches.open` creates a missing cache.
* A cache compares requests by their URLs without the fragment, and `put` refuses a partial
  response (status 206).  The `fetch` listener, whose requests come from the page, uses the
  operations `requestMatch` and `requestPut`, which do so.  The `activate` listener hands
  to a cache the requests of `keys()` and the responses of the staging cache, which a cache
  has accepted; there, and in `downloadOffline`, the operations `cacheMatch`, `cacheDelete`
  and `cachePut` compare URLs as stored, which is the same in a cache that holds one entry
  for a request at most (`requestMatch_eq_cacheMatch`, `requestDelete_eq_cacheDelete`,
  `requestPut_eq_cachePut`).  Responses carry no headers: no `Vary` header takes part in a
  comparison.
* Every awaited operation of the `activate` listener may reject.  The position of the
  rejecting operation is a parameter of the model (`none`: no operation rejects).  The cache
  operations of the `fetch` listener and of `downloadOffline` are carried out as written.
* The network is a function from requests to either a response or a network error.
* The URL that a relative path is given when a request is made for it (`cache.addAll`) is a
  parameter of the model; `rootResolve` is its value for a worker served from the root of
  the origin.
-/

namespace ServiceWorker

/-! ## Strings -/

/-- JavaScript strings. -/
abbrev Str := List Char

/-- `s.indexOf(pat)`: index of the first occurrence of `pat` in `s`, or `-1`. -/
def indexOf : Str → Str → Int
  | [], pat => if pat = [] then 0 else -1
  | c :: t, pat =>
    if pat <+: c :: t then 0
    else
      let i := indexOf t pat
      if i = -1 then -1 else i + 1

/-- `s.split(sep)[0]` for a non-empty separator: the part of `s` before the first
occurrence of `sep`, or all of `s` when `sep` does not occur. -/
def splitHead : Str → Str → Str
  | [], _ => []
  | c :: t, sep => if sep <+: c :: t then [] else c :: splitHead t sep

/-- `s.substring(n)`. -/
def substring (s : Str) (n : Nat) : Str := s.drop n

/-- `s.startsWith(p)`. -/
def startsWith (s p : Str) : Bool := decide (p <+: s)

/-! ## Objects used as dictionaries -/

/-- The values that reading a property of a manifest object can yield: `undefined`, an own
string value, or an object inherited from `Object.prototype` (named by its property). -/
inductive JSVal where
  | undefined
  | string (s : Str)
  | object (name : Str)
  deriving DecidableEq, Repr

/-- The property names every plain object inherits from `Object.prototype`. -/
def objectPrototype : List Str :=
  ["constructor".toList, "hasOwnProperty".toList, "isPrototypeOf".toList,
   "propertyIsEnumerable".toList, "toLocaleString".toList, "toString".toList,
   "valueOf".toList, "__proto__".toList, "__defineGetter__".toList,
   "__defineSetter__".toList, "__lookupGetter__".toList, "__lookupSetter__".toList]

/-- A manifest object: its own properties in source order. -/
abbrev Manifest := List (Str × Str)

/-- The own property `key` of a manifest object; the last definition of a key wins. -/
def ownProp : Manifest → Str → Option Str
  | [], _ => none
  | (k, v) :: rest, key =>
    match ownProp rest key with
    | some w => some w
    | none => if k = key then some v else none

/-- The expression `M[key]`. -/
def jsGet (M : Manifest) (key : Str) : JSVal :=
  match ownProp M key with
  | some v => .string v
  | none => if key ∈ objectPrototype then .object key else .undefined

/-- JavaScript truthiness: `!v` is `false` exactly when `truthy v`. -/
def truthy : JSVal → Bool
  | .undefined => false
  | .string s => decide (s ≠ [])
  | .object _ => true

/-- The loose inequality `a != b`.  `toPrimitive` gives the host's string conversion of an
inherited object, which is what a string is compared with. -/
def looseNe (toPrimitive : Str → Str) : JSVal → JSVal → Bool
  | .undefined, .undefined => false
  | .string s, .string t => decide (s ≠ t)
  | .object m, .object n => decide (m ≠ n)
  | .string s, .object n => decide (s ≠ toPrimitive n)
  | .object n, .string s => decide (toPrimitive n ≠ s)
  | .undefined, _ => true
  | _, .undefined => true

/-- `Object.keys(M)` up to order and repetition: the names of the own properties. -/
def Manifest.keys (M : Manifest) : List Str := M.map Prod.fst

/-! ## The worker's environment -/

/-- The constants the worker closes over. -/
structure Env where
  /-- `self.location.origin` -/
  origin : Str
  /-- The constant `RESOURCES` -/
  RESOURCES : Manifest
  /-- The string conversion of the objects inherited from `Object.prototype`. -/
  toPrimitive : Str → Str

/-! ## Keys -/

/-- The string `"/"`, the key of the root document. -/
def rootKey : Str := "/".toList

/-- The string `"?v="`, which starts the cache-busting parameter. -/
def versionMark : Str := "?v=".toList

/-- The string `"GET"`. -/
def GET : Str := "GET".toList

/-- The key the `activate` listener computes for a cached request (lines 142-145). -/
def activateKey (origin url : Str) : Str :=
  let key := substring url (origin.length + 1)
  if key = [] then rootKey else key

/-- The key the `fetch` listener computes for a request URL (lines 180-188). -/
def fetchKey (origin url : Str) : Str :=
  let key := substring url (origin.length + 1)
  let key := if indexOf key versionMark != -1 then splitHead key versionMark else key
  if url = origin || startsWith url (origin ++ "/#".toList) || key = [] then rootKey
  else key

/-! ## Caches -/

/-- A stored response: its HTTP status and its body. -/
structure Response where
  status : Nat
  body : Str
  deriving DecidableEq, Repr

/-- The attribute `response.ok`: the status is in the range 200-299. -/
def Response.ok (r : Response) : Bool := decide (200 ≤ r.status ∧ r.status ≤ 299)

/-- A cache: its entries in insertion order, each with the URL of its request as it was
stored. -/
abbrev Cache := List (Str × Response)

/-- `cache.keys()`: the URLs of the cached requests. -/
def cacheKeys (c : Cache) : List Str := c.map Prod.fst

/-- The response stored under a URL.  It is the result of `cache.match(request)` for a
request that is compared by its URL as stored, as the requests of `cache.keys()` are in the
`activate` listener (see `requestMatch_eq_cacheMatch`). -/
def cacheMatch : Cache → Str → Option Response
  | [], _ => none
  | (u, r) :: rest, url => if u = url then some r else cacheMatch rest url

/-- The entry stored under a URL removed: `cache.delete(request)` for a request compared by
its URL as stored. -/
def cacheDelete (c : Cache) (url : Str) : Cache := c.filter (fun e => decide (e.1 ≠ url))

/-- A response written under a URL, in place of the entry stored under it:
`cache.put(request, response)` for a request compared by its URL as stored and a response
that the cache accepts. -/
def cachePut (c : Cache) (url : Str) (r : Response) : Cache := cacheDelete c url ++ [(url, r)]

/-- A URL without its fragment: the part before the first `#`. -/
def withoutFragment (url : Str) : Str := url.takeWhile (fun ch => decide (ch ≠ '#'))

/-- Two URLs name the same request for a cache: they are equal up to the fragment. -/
def sameRequest (u v : Str) : Bool := decide (withoutFragment u = withoutFragment v)

/-- `cache.match(request)` for the request of a `fetch` event: the response of the first
entry whose URL equals the URL of the request up to the fragment. -/
def requestMatch : Cache → Str → Option Response
  | [], _ => none
  | (u, r) :: rest, url => if sameRequest u url then some r else requestMatch rest url

/-- `cache.delete(request)`: every entry of the same request is removed. -/
def requestDelete (c : Cache) (url : Str) : Cache := c.filter (fun e => !sameRequest e.1 url)

/-- The response is one that `cache.put` refuses: a partial response (status 206). -/
def Response.refused (r : Response) : Bool := decide (r.status = 206)

/-- `cache.put(request, response)` for the request of a `fetch` event, as the cache is left
by it.  A partial response is refused: the promise of `put` rejects and nothing is written.
Otherwise the entries of the same request give way to the new entry, stored under the URL
of the request. -/
def requestPut (c : Cache) (url : Str) (r : Response) : Cache :=
  if r.refused then c else requestDelete c url ++ [(url, r)]

/-- The body of the response stored under `'manifest'`: either it parses (`manifest.json()`)
to a manifest object, or reading it as one throws.  `JSON.stringify` followed by `json()`
gives back the own properties of the manifest. -/
inductive Snapshot where
  | json (m : Manifest)
  | corrupt
  deriving DecidableEq, Repr

/-- The three caches of the worker in `caches`; `none`: the cache does not exist. -/
structure CacheStorage where
  /-- `'flutter-app-cache'`, the content store -/
  CACHE_NAME : Option Cache
  /-- `'flutter-temp-cache'`, the staging store -/
  TEMP : Option Cache
  /-- `'flutter-app-manifest'`, the manifest snapshot store: the body stored under
  `'manifest'`, if any -/
  MANIFEST : Option (Option Snapshot)
  deriving DecidableEq, Repr

/-- The entries seen through a handle obtained from `caches.open(CACHE_NAME)`. -/
def CacheStorage.content (s : CacheStorage) : Cache := s.CACHE_NAME.getD []

/-- The entries seen through a handle obtained from `caches.open(TEMP)`. -/
def CacheStorage.staging (s : CacheStorage) : Cache := s.TEMP.getD []

/-- The result of `manifestCache.match('manifest')`. -/
def CacheStorage.snapshot (s : CacheStorage) : Option Snapshot := s.MANIFEST.getD none

/-- The errors of the model. -/
inductive Err where
  /-- an awaited cache operation rejected -/
  | storage
  /-- a `TypeError` or `SyntaxError` raised by the script itself -/
  | script
  /-- `fetch` rejected -/
  | network (code : Nat)
  deriving DecidableEq, Repr

/-! ## The `activate` listener -/

/-- The monad of the `try` block: an exception carries the caches as they are when it is
thrown. -/
abbrev Try := Except (Err × CacheStorage)

/-- One awaited operation.  `fault = some n`: the operation after the next `n` rejects. -/
def await (fault : Option Nat) (s : CacheStorage) : Try (Option Nat) :=
  match fault with
  | none => .ok none
  | some 0 => .error (.storage, s)
  | some (n + 1) => .ok (some n)

/-- The loop copying the staging entries into the content cache (lines 128-131 and
155-158), over the requests returned by `tempCache.keys()`. -/
def copyLoop : List Str → Option Nat → CacheStorage → Try (Option Nat × CacheStorage)
  | [], fault, s => .ok (fault, s)
  | request :: rest, fault, s => do
    -- response = await tempCache.match(request)
    let fault ← await fault s
    let response := cacheMatch s.staging request
    -- await contentCache.put(request, response); `put` rejects an undefined response
    let fault ← await fault s
    match response with
    | none => .error (.script, s)
    | some response =>
      copyLoop rest fault { s with CACHE_NAME := some (cachePut s.content request response) }

/-- The condition of line 149. -/
def stale (env : Env) (oldManifest : Manifest) (key : Str) : Bool :=
  !truthy (jsGet env.RESOURCES key) ||
    looseNe env.toPrimitive (jsGet env.RESOURCES key) (jsGet oldManifest key)

/-- The loop deleting the stale content entries (lines 141-152), over the requests returned
by `contentCache.keys()`. -/
def diffLoop (env : Env) (oldManifest : Manifest) :
    List Str → Option Nat → CacheStorage → Try (Option Nat × CacheStorage)
  | [], fault, s => .ok (fault, s)
  | request :: rest, fault, s =>
    let key := activateKey env.origin request
    if stale env oldManifest key then do
      -- await contentCache.delete(request)
      let fault ← await fault s
      diffLoop env oldManifest rest fault
        { s with CACHE_NAME := some (cacheDelete s.content request) }
    else diffLoop env oldManifest rest fault s

/-- The `try` block of the `activate` listener (lines 120-164). -/
def activateTry (env : Env) (s : CacheStorage) (fault : Option Nat) : Try CacheStorage := do
  -- contentCache = await caches.open(CACHE_NAME)
  let fault ← await fault s
  let s := { s with CACHE_NAME := some s.content }
  -- tempCache = await caches.open(TEMP)
  let fault ← await fault s
  let s := { s with TEMP := some s.staging }
  -- manifestCache = await caches.open(MANIFEST)
  let fault ← await fault s
  let s := { s with MANIFEST := some s.snapshot }
  -- manifest = await manifestCache.match('manifest')
  let fault ← await fault s
  match s.snapshot with
  | none =>
    -- await caches.delete(CACHE_NAME)
    let fault ← await fault s
    let s := { s with CACHE_NAME := none }
    -- contentCache = await caches.open(CACHE_NAME)
    let fault ← await fault s
    let s := { s with CACHE_NAME := some s.content }
    -- for (var request of await tempCache.keys())
    let fault ← await fault s
    let (fault, s) ← copyLoop (cacheKeys s.staging) fault s
    -- await caches.delete(TEMP)
    let fault ← await fault s
    let s := { s with TEMP := none }
    -- await manifestCache.put('manifest', new Response(JSON.stringify(RESOURCES)))
    let _ ← await fault s
    pure { s with MANIFEST := some (some (.json env.RESOURCES)) }
  | some manifest =>
    -- oldManifest = await manifest.json()
    let fault ← await fault s
    match manifest with
    | .corrupt => .error (.script, s)
    | .json oldManifest =>
      -- for (var request of await contentCache.keys())
      let fault ← await fault s
      let (fault, s) ← diffLoop env oldManifest (cacheKeys s.content) fault s
      -- for (var request of await tempCache.keys())
      let fault ← await fault s
      let (fault, s) ← copyLoop (cacheKeys s.staging) fault s
      -- await caches.delete(TEMP)
      let fault ← await fault s
      let s := { s with TEMP := none }
      -- await manifestCache.put('manifest', new Response(JSON.stringify(RESOURCES)))
      let _ ← await fault s
      pure { s with MANIFEST := some (some (.json env.RESOURCES)) }

/-- How the promise handed to `event.waitUntil` or `event.respondWith` settles. -/
inductive Settled (α : Type) where
  | fulfilled (value : α)
  | rejected (error : Err)
  deriving DecidableEq, Repr

/-- What a run of the `activate` listener leaves behind. -/
structure Activation where
  /-- the promise handed to `event.waitUntil` -/
  promise : Settled Unit
  /-- the exception caught by the `catch` clause, if one was thrown -/
  caught : Option Err
  /-- the caches afterwards -/
  caches : CacheStorage
  deriving DecidableEq, Repr

/-- The `catch` clause (lines 165-171): three awaited deletions. -/
def activateCatch (s : CacheStorage) (fault : Option Nat) : Settled Unit × CacheStorage :=
  match await fault s with
  | .error (e, s) => (.rejected e, s)
  | .ok fault =>
    let s := { s with CACHE_NAME := none }
    match await fault s with
    | .error (e, s) => (.rejected e, s)
    | .ok fault =>
      let s := { s with TEMP := none }
      match await fault s with
      | .error (e, s) => (.rejected e, s)
      | .ok _ => (.fulfilled (), { s with MANIFEST := none })

/-- The `activate` listener (lines 117-173).  `tryFault` and `catchFault` place a rejecting
cache operation in the `try` block and in the `catch` clause. -/
def activate (env : Env) (s : CacheStorage) (tryFault catchFault : Option Nat) : Activation :=
  match activateTry env s tryFault with
  | .ok s => { promise := .fulfilled (), caught := none, caches := s }
  | .error (e, s) =>
    let (promise, s) := activateCatch s catchFault
    { promise := promise, caught := some e, caches := s }

/-! ## The `fetch` listener -/

/-- A request event: method and URL. -/
structure Request where
  method : Str
  url : Str
  deriving DecidableEq, Repr

/-- The network: `fetch(request)` resolves to a response or rejects. -/
abbrev Network := Request → Except Err Response

/-- What the `fetch` listener does with an event. -/
inductive FetchResult where
  /-- the listener returns without calling `event.respondWith` -/
  | declined
  /-- the listener calls `event.respondWith` with a promise that settles so -/
  | respondWith (promise : Settled Response)
  deriving DecidableEq, Repr

/-- The function `onlineFirst` (lines 247-265).  The `put` of line 251 is not awaited: when
it rejects, the response is returned all the same. -/
def onlineFirst (net : Network) (s : CacheStorage) (request : Request) :
    FetchResult × CacheStorage :=
  match net request with
  | .ok response =>
    (.respondWith (.fulfilled response),
      { s with CACHE_NAME := some (requestPut s.content request.url response) })
  | .error error =>
    match requestMatch s.content request.url with
    | some response =>
      (.respondWith (.fulfilled response), { s with CACHE_NAME := some s.content })
    | none => (.respondWith (.rejected error), { s with CACHE_NAME := some s.content })

/-- The `fetch` listener (lines 176-212).  The `put` of line 205 is not awaited: when it
rejects, the response is returned all the same. -/
def fetchListener (env : Env) (net : Network) (s : CacheStorage) (request : Request) :
    FetchResult × CacheStorage :=
  if request.method ≠ GET then (.declined, s)
  else
    let key := fetchKey env.origin request.url
    if !truthy (jsGet env.RESOURCES key) then (.declined, s)
    else if key = rootKey then onlineFirst net s request
    else
      match requestMatch s.content request.url with
      | some response =>
        (.respondWith (.fulfilled response), { s with CACHE_NAME := some s.content })
      | none =>
        match net request with
        | .ok response =>
          if response.ok then
            (.respondWith (.fulfilled response),
              { s with CACHE_NAME := some (requestPut s.content request.url response) })
          else (.respondWith (.fulfilled response), { s with CACHE_NAME := some s.content })
        | .error error =>
          (.respondWith (.rejected error), { s with CACHE_NAME := some s.content })

/-! ## Entries a run without exception leaves in the content cache -/

/-- The content entries after the copy loop has gone through `keys` without an exception. -/
def copied (staging : Cache) : List Str → Cache → Cache
  | [], c => c
  | u :: rest, c =>
    copied staging rest (match cacheMatch staging u with
      | some r => cachePut c u r
      | none => c)

/-- The content entries after the deletion loop has gone through `keys`. -/
def pruned (env : Env) (oldManifest : Manifest) : List Str → Cache → Cache
  | [], c => c
  | u :: rest, c =>
    pruned env oldManifest rest
      (if stale env oldManifest (activateKey env.origin u) then cacheDelete c u else c)

/-- The caches after a first activation that threw no exception. -/
def freshCaches (env : Env) (s : CacheStorage) : CacheStorage :=
  { CACHE_NAME := some (copied s.staging (cacheKeys s.staging) []),
    TEMP := none,
    MANIFEST := some (some (.json env.RESOURCES)) }

/-- The caches after an upgrade activation that threw no exception. -/
def upgradedCaches (env : Env) (oldManifest : Manifest) (s : CacheStorage) : CacheStorage :=
  { CACHE_NAME := some (copied s.staging (cacheKeys s.staging)
      (pruned env oldManifest (cacheKeys s.content) s.content)),
    TEMP := none,
    MANIFEST := some (some (.json env.RESOURCES)) }

/-! ## Examples -/

/-- The origin of the examples. -/
def exOrigin : Str := "https://a.io".toList

/-- The manifest `{"a.js": "hash1"}`. -/
def exManifest : Manifest := [("a.js".toList, "hash1".toList)]

/-- An environment with the manifest `{"a.js": "hash1"}`. -/
def exEnv : Env :=
  { origin := exOrigin, RESOURCES := exManifest, toPrimitive := fun _ => "[object]".toList }

/-- A response with status 200. -/
def exResponse (body : String) : Response := { status := 200, body := body.toList }

/-- The URL of a path below the origin of the examples. -/
def exUrl (path : String) : Str := exOrigin ++ "/".toList ++ path.toList

/-- A `GET` request for a path below the origin of the examples. -/
def exGet (path : String) : Request := { method := GET, url := exUrl path }

/-- A network that answers every request with status 404. -/
def exNotFound : Network := fun _ => .ok { status := 404, body := [] }

/-- A network that answers every request with status 200. -/
def exOnline : Network := fun _ => .ok { status := 200, body := "fresh".toList }

/-- A network that answers every request with a partial response (status 206). -/
def exRange : Network := fun _ => .ok { status := 206, body := "part".toList }

/-- A network on which every request fails. -/
def exOffline : Network := fun _ => .error (.network 0)

/-- The manifest `{"a.js": "hash1", "b.js": "hash2"}`. -/
def exOldManifest : Manifest := [("a.js".toList, "hash1".toList), ("b.js".toList, "hash2".toList)]

/-- An environment with the manifest `{"a.js": "hash1", "b.js": "hash3"}`. -/
def exUpgradeEnv : Env :=
  { origin := exOrigin,
    RESOURCES := [("a.js".toList, "hash1".toList), ("b.js".toList, "hash3".toList)],
    toPrimitive := fun _ => "[object]".toList }

/-- Upgrade from `exOldManifest`: content holds `a.js` and `b.js`, staging a new `b.js`. -/
def exUpgradeState : CacheStorage :=
  { CACHE_NAME := some [(exUrl "a.js", exResponse "A"), (exUrl "b.js", exResponse "B2")],
    TEMP := some [(exUrl "b.js", exResponse "B3")],
    MANIFEST := some (some (.json exOldManifest)) }

/-- Upgrade with an unchanged manifest: content and staging both hold `a.js`. -/
def exOverwriteState : CacheStorage :=
  { CACHE_NAME := some [(exUrl "a.js", exResponse "old")],
    TEMP := some [(exUrl "a.js", exResponse "new")],
    MANIFEST := some (some (.json exManifest)) }

/-- Upgrade with an unchanged manifest: content holds an entry for `/constructor`. -/
def exInheritedState : CacheStorage :=
  { CACHE_NAME := some [(exUrl "constructor", exResponse "page")],
    TEMP := some [],
    MANIFEST := some (some (.json exManifest)) }

/-- First install: staging holds `a.js`, nothing else exists. -/
def exInstallState : CacheStorage :=
  { CACHE_NAME := none,
    TEMP := some [(exUrl "a.js", exResponse "A")],
    MANIFEST := none }

/-- First install with a staged path that is not in the manifest. -/
def exForeignState : CacheStorage :=
  { CACHE_NAME := none,
    TEMP := some [(exUrl "x.js", exResponse "X")],
    MANIFEST := none }

/-- An environment whose manifest has the root document: `{"/": "hash0", "a.js": "hash1"}`. -/
def exRootEnv : Env :=
  { origin := exOrigin,
    RESOURCES := [("/".toList, "hash0".toList), ("a.js".toList, "hash1".toList)],
    toPrimitive := fun _ => "[object]".toList }

/-- Content holds an entry for the root document. -/
def exRootState : CacheStorage :=
  { CACHE_NAME := some [(exUrl "", exResponse "index")], TEMP := none, MANIFEST := none }

/-- No cache exists. -/
def exEmpty : CacheStorage := { CACHE_NAME := none, TEMP := none, MANIFEST := none }

/-! ## The `message` listener and `downloadOffline` -/

/-- The names of a list, each once, in the order of their first occurrence. -/
def firstOccurrences : List Str → List Str
  | [] => []
  | k :: rest => k :: (firstOccurrences rest).filter (fun j => decide (j ≠ k))

/-- `Object.keys(M)`: the names of the own properties, each once, in the order in which
they are defined (the order of `Object.keys` for names that are not array indices). -/
def objectKeys (M : Manifest) : List Str := firstOccurrences (Manifest.keys M)

/-- The object `currentContent` after the loop of lines 231-237, as the list of the keys
that were set to `true`.  Lines 232-235 compute the key as lines 142-145 do; `origin` is
there the global `self.origin`, the same string as `self.location.origin`. -/
def currentContent (origin : Str) (contentCache : Cache) : List Str :=
  (cacheKeys contentCache).map (activateKey origin)

/-- The expression `currentContent[resourceKey]` is truthy: the key was set to `true`, or
it names an object inherited from `Object.prototype`. -/
def currentContentHas (keys : List Str) (resourceKey : Str) : Bool :=
  decide (resourceKey ∈ keys) || decide (resourceKey ∈ objectPrototype)

/-- The array `resources` that `downloadOffline` hands to `addAll` (lines 238-242). -/
def resources (env : Env) (contentCache : Cache) : List Str :=
  (objectKeys env.RESOURCES).filter
    (fun resourceKey => !currentContentHas (currentContent env.origin contentCache) resourceKey)

/-- The fetches of `cache.addAll(paths)`.  `resolve` gives the URL of the request made for a
path (the path resolved against the URL of the worker's script).  A fetch that rejects and
a response that is not ok make `addAll` reject; of several failures the model reports the
first in the order of the list. -/
def fetchAll (net : Network) (resolve : Str → Str) :
    List Str → Except Err (List (Str × Response))
  | [] => .ok []
  | path :: rest =>
    match net { method := GET, url := resolve path } with
    | .error e => .error e
    | .ok response =>
      if response.ok then
        match fetchAll net resolve rest with
        | .error e => .error e
        | .ok entries => .ok ((resolve path, response) :: entries)
      else .error .script

/-- The fetched entries put into a cache one after the other. -/
def putAll : List (Str × Response) → Cache → Cache
  | [], c => c
  | (url, r) :: rest, c => putAll rest (cachePut c url r)

/-- `cache.addAll(paths)`: all responses are fetched first; the cache is written only when
every fetch has given an ok response. -/
def addAll (net : Network) (resolve : Str → Str) (c : Cache) (paths : List Str) :
    Except Err Cache :=
  match fetchAll net resolve paths with
  | .error e => .error e
  | .ok entries => .ok (putAll entries c)

/-- The function `downloadOffline` (lines 227-244): how its promise settles, and the caches
afterwards. -/
def downloadOffline (env : Env) (resolve : Str → Str) (net : Network) (s : CacheStorage) :
    Settled Unit × CacheStorage :=
  let contentCache := s.content
  match addAll net resolve contentCache (resources env contentCache) with
  | .ok c => (.fulfilled (), { s with CACHE_NAME := some c })
  | .error e => (.rejected e, { s with CACHE_NAME := some contentCache })

/-- The `message` listener (lines 213-224), for a string as `event.data`: the caches
afterwards.  The promise of `downloadOffline` is dropped. -/
def messageListener (env : Env) (resolve : Str → Str) (net : Network) (s : CacheStorage)
    (data : Str) : CacheStorage :=
  if data = "skipWaiting".toList then s
  else if data = "downloadOffline".toList then (downloadOffline env resolve net s).2
  else s

/-- The URL `origin/p?v=x`. -/
def versionedUrl (origin p x : Str) : Str := origin ++ "/".toList ++ p ++ versionMark ++ x

/-! ## The constants of the repository -/

/-- The constant `RESOURCES` (lines 6-95). -/
def RESOURCES : Manifest :=
  [("analytics.js".toList, "4a9142cef9138882a3cb096e6e8ab6e1".toList),
   ("flutter.js".toList, "888483df48293866f9f41d3d9274a779".toList),
   ("icons/Icon-512.png".toList, "96e752610906ba2a93c65f8abe1645f1".toList),
   ("icons/Icon-maskable-512.png".toList, "301a7604d45b3e739efc881eb04896ea".toList),
   ("icons/Icon-192.png".toList, "ac9a721a12bbc803b44f645561ecb1e1".toList),
   ("icons/Icon-maskable-192.png".toList, "c457ef57daa1d16f64b27b786ec2ea3c".toList),
   ("manifest.json".toList, "173ab279d16d7b7b600e3c7a19c96303".toList),
   ("index.html".toList, "59b21fb2c6b1424e281516567a11afc3".toList),
   ("/".toList, "59b21fb2c6b1424e281516567a11afc3".toList),
   ("assets/shaders/ink_sparkle.frag".toList, "ecc85a2e95f5e9f53123dcaf8cb9b6ce".toList),
   ("assets/AssetManifest.bin.json".toList, "9e2a3575d07374a157e05b3a6dd94fa7".toList),
   ("assets/assets/images/retailers/Aldi_Sued.jpg".toList,
      "fedecb3d4168510e36c419941839830e".toList),
   ("assets/assets/images/retailers/marktkauf.png".toList,
      "f78b1d29d1025422038514210f521645".toList),
   ("assets/assets/images/retailers/edeka.svg".toList, "0d80b5ebeb5631969404394492d7bf33".toList),
   ("assets/assets/images/retailers/kaufland.png".toList,
      "bb4e9aac2cf824b3784c8ae119e303dc".toList),
   ("assets/assets/images/retailers/edeka.png".toList, "afadc61d43071e9874fa5873a621bf39".toList),
   ("assets/assets/images/retailers/Scottie.png".toList, "ff2004f525c76dc727a92634dcdbbf61".toList),
   ("assets/assets/images/retailers/rewe.png".toList, "5af52d7dc6f0a5a50ee993ae9af56c77".toList),
   ("assets/assets/images/retailers/penny.png".toList, "daa6fc7eec4ad989af4b26cf233014d6".toList),
   ("assets/assets/images/retailers/globus.png".toList, "ad21e7b5e6e153d44b2cc155e38e7e25".toList),
   ("assets/assets/images/retailers/aldi.svg".toList, "0c34c939531ed10bee147447a1cc88e3".toList),
   ("assets/assets/images/retailers/biocompany.png".toList,
      "e108cc28b2a8f890f64759219180f402".toList),
   ("assets/assets/images/retailers/netto.png".toList, "7e55f7cedb21dc49354c94ba69800fc3".toList),
   ("assets/assets/images/retailers/aldi.png".toList, "38873998e54010f73bd1a070257bea7b".toList),
   ("assets/assets/images/retailers/norma.png".toList, "04f96fde7feee92e474d16ee4d411a4d".toList),
   ("assets/assets/images/retailers/real.png".toList, "7b0ca8d0c68080e28cc656a2e0a71fd3".toList),
   ("assets/assets/images/retailers/lidl.png".toList, "f7cfdc2b7a7383465dd913be582577ec".toList),
   ("assets/assets/images/retailers/nahkauf.png".toList, "2e35a172013635e3e9fc60032b37dc40".toList),
   ("assets/assets/images/retailers/nahkauf.jpg".toList, "c88ed38c684422057db82e58ac900c07".toList),
   ("assets/assets/images/retailers/edeka.jpg".toList, "d0c6f0e55e456d102eabdb593afda3d0".toList),
   ("assets/assets/images/retailers/norma.jpg".toList, "0d79c499a84a759d8f8f34694db2cdc2".toList),
   ("assets/assets/images/retailers/rewe.svg".toList, "0a661c351a8c497a3a14803f884e6e7a".toList),
   ("assets/assets/images/products/tomaten.jpg".toList, "620c0698372d308594bb967b0b05f4d4".toList),
   ("assets/assets/images/products/quark.jpg".toList, "c583176e5f2f531bb392f3f2b7d1ab35".toList),
   ("assets/assets/images/products/gouda.jpg".toList, "8bc0112b5c61666151a93b4e370b0b80".toList),
   ("assets/assets/images/products/milchbroetchen.jpg".toList,
      "d5427b18818150a126e70bf7948d7784".toList),
   ("assets/assets/images/products/drinks.jpg".toList, "917433b138e2cbb4b5710b649fc67b6f".toList),
   ("assets/assets/images/products/bio_apfel.jpg".toList,
      "eaadcea7b27af24b75a6249be0a9b2e5".toList),
   ("assets/assets/images/products/bio_bananen.jpg".toList,
      "b940b28afb0740075653594719b2d265".toList),
   ("assets/assets/images/products/meat.jpg".toList, "3d47c0d6b9c9442c9e40173cfb2bfad4".toList),
   ("assets/assets/images/products/schnitzel.jpg".toList,
      "c53e1c4f9060ed8ce1507e3cf673d2c2".toList),
   ("assets/assets/images/products/vollmilch.jpg".toList,
      "5519df9d38fc6ff0f029acc7e2f86906".toList),
   ("assets/assets/images/products/mineralwasser.jpg".toList,
      "24d6e3a03ffd71b797c1b3eddc0d93a7".toList),
   ("assets/assets/images/products/croissants.jpg".toList,
      "f666fa8ffad5b45311b79ede27bea7c2".toList),
   ("assets/assets/images/products/broetchen.jpg".toList,
      "93100a6e5bbeb681a7ac5c241daaf45a".toList),
   ("assets/assets/images/products/haehnchen.jpg".toList,
      "e08e93345822a49fa08f698572126928".toList),
   ("assets/assets/images/products/butter.jpg".toList, "02f04aa0a14e1769dcfb76a0a0299da7".toList),
   ("assets/assets/images/products/gurken.jpg".toList, "2ad54bb9c800c7fd36e35da2723afd3d".toList),
   ("assets/assets/images/products/cola.jpg".toList, "bbb924f9b28470f050118ef31bfb7c1a".toList),
   ("assets/assets/images/products/bratwurst.jpg".toList,
      "134e71f7d382c03006561b38d2e545e9".toList),
   ("assets/assets/images/products/joghurt.jpg".toList, "74a4cf0d8a23fb72bfe84966ca3129d1".toList),
   ("assets/assets/images/products/bio_vollmilch.jpg".toList,
      "aabc3b188d2915e6d88ac9294758e054".toList),
   ("assets/assets/images/products/apfelsaft.jpg".toList,
      "534df4fbf199c90ba36eb7266b0aaff6".toList),
   ("assets/assets/images/products/dairy.jpg".toList, "486e6069978a465aa840ac1bfb9596fe".toList),
   ("assets/assets/images/products/kartoffeln.jpg".toList,
      "0466b1aa387fd6a3a1cadae74c174889".toList),
   ("assets/assets/images/products/bananen.jpg".toList, "4557a5dda60be0d22e564350d2016330".toList),
   ("assets/assets/images/products/bread.jpg".toList, "9772197baa0f01e081546bbaa26eacb0".toList),
   ("assets/assets/images/products/vollkornbrot.jpg".toList,
      "0eeac0f3e70bf349826519e6daa8b39e".toList),
   ("assets/assets/images/products/rinderhack.jpg".toList,
      "150e60485ffcec529a884987c232ee37".toList),
   ("assets/assets/images/products/fruits.jpg".toList, "760403e521f2555ae4d0ab9962b972c8".toList),
   ("assets/assets/images/products/apfel.jpg".toList, "5172903f9d4431220d05a8bbc76c9541".toList),
   ("assets/assets/images/product_placeholder.svg".toList,
      "823d11c15da0b80998598f3622925a34".toList),
   ("assets/assets/images/logo.svg".toList, "be7451a137bd9fb6e2e559308b774fbe".toList),
   ("assets/assets/images/map_placeholder.png".toList, "868a264e02da3e7c655b58b9f46b902f".toList),
   ("assets/fonts/MaterialIcons-Regular.otf".toList, "876341733b6c07b5cede271ec17fb6e8".toList),
   ("assets/NOTICES".toList, "ac86604a7e650213a7130a7cd9595e0a".toList),
   ("assets/packages/cupertino_icons/assets/CupertinoIcons.ttf".toList,
      "33b7d9392238c04c131b6ce224e13711".toList),
   ("assets/packages/flutter_map/lib/assets/flutter_map_logo.png".toList,
      "208d63cc917af9713fc9572bd5c09362".toList),
   ("assets/FontManifest.json".toList, "dc3d03800ccca4601324923c0b1d6d57".toList),
   ("assets/AssetManifest.bin".toList, "e688acd0e902069a2aa3e196f7c22779".toList),
   ("assets/AssetManifest.json".toList, "af0c2cb5859b4cd1d6baaa23c2a6d25f".toList),
   ("canvaskit/chromium/canvaskit.wasm".toList, "24c77e750a7fa6d474198905249ff506".toList),
   ("canvaskit/chromium/canvaskit.js".toList, "5e27aae346eee469027c80af0751d53d".toList),
   ("canvaskit/chromium/canvaskit.js.symbols".toList, "193deaca1a1424049326d4a91ad1d88d".toList),
   ("canvaskit/skwasm_heavy.wasm".toList, "8034ad26ba2485dab2fd49bdd786837b".toList),
   ("canvaskit/skwasm_heavy.js.symbols".toList, "3c01ec03b5de6d62c34e17014d1decd3".toList),
   ("canvaskit/skwasm.js".toList, "1ef3ea3a0fec4569e5d531da25f34095".toList),
   ("canvaskit/canvaskit.wasm".toList, "07b9f5853202304d3b0749d9306573cc".toList),
   ("canvaskit/skwasm_heavy.js".toList, "413f5b2b2d9345f37de148e2544f584f".toList),
   ("canvaskit/canvaskit.js".toList, "140ccb7d34d0a55065fbd422b843add6".toList),
   ("canvaskit/skwasm.wasm".toList, "264db41426307cfc7fa44b95a7772109".toList),
   ("canvaskit/canvaskit.js.symbols".toList, "58832fbed59e00d2190aa295c4d70360".toList),
   ("canvaskit/skwasm.js.symbols".toList, "0088242d10d7e7d6d2649d1fe1bda7c1".toList),
   ("favicon.png".toList, "5dcef449791fa27946b3d35ad8803796".toList),
   ("robots.txt".toList, "89dcb0b245e44b354bec3ee8fdb8d158".toList),
   ("CNAME".toList, "b13d7d0b24b8cb91deb73f97170cf017".toList),
   ("sitemap.xml".toList, "f0a32cb91cc21adfa3c916ae665efcf4".toList),
   ("flutter_bootstrap.js".toList, "bc9c8af99fce5fab6dcbccfb2dabe2e1".toList),
   ("version.json".toList, "44ebcf554db5384995ec8e487a1d1359".toList),
   ("main.dart.js".toList, "479fd7c054e6348f046582950a62b130".toList)]

/-- The constant `CORE` (lines 98-102). -/
def CORE : List Str :=
  ["main.dart.js".toList, "index.html".toList, "flutter_bootstrap.js".toList,
   "assets/AssetManifest.bin.json".toList, "assets/FontManifest.json".toList]

/-- The URL of the request made for a path by a worker whose script is served from the root
of the origin, for a path that URL parsing leaves as it is. -/
def rootResolve (origin path : Str) : Str :=
  if startsWith path "/".toList then origin ++ path else origin ++ "/".toList ++ path

/-- The worker of the repository at the origin of the examples. -/
def exWorker : Env :=
  { origin := exOrigin, RESOURCES := RESOURCES, toPrimitive := fun _ => "[object]".toList }

/-- Content holds `main.dart.js`, stored for a request with a version parameter, and the
snapshot is the manifest of the repository. -/
def exVersionedState : CacheStorage :=
  { CACHE_NAME := some [(exUrl "main.dart.js?v=123", exResponse "main")],
    TEMP := some [],
    MANIFEST := some (some (.json RESOURCES)) }

/-- Content holds every resource of the manifest `{"/": "hash0", "a.js": "hash1"}` but
`a.js`. -/
def exPartialState : CacheStorage :=
  { CACHE_NAME := some [(exUrl "", exResponse "index")], TEMP := none, MANIFEST := none }

/-! ## Lemmas on caches -/

theorem cacheDelete_nil (u : Str) : cacheDelete [] u = [] := rfl

theorem cacheDelete_cons (k : Str) (r : Response) (rest : Cache) (u : Str) :
    cacheDelete ((k, r) :: rest) u
      = if k = u then cacheDelete rest u else (k, r) :: cacheDelete rest u := by
  unfold cacheDelete
  rw [List.filter_cons]
  by_cases h : k = u <;> simp [h]

theorem cacheMatch_delete (c : Cache) (u url : Str) :
    cacheMatch (cacheDelete c u) url = if u = url then none else cacheMatch c url := by
  induction c with
  | nil => simp [cacheDelete_nil, cacheMatch]
  | cons e rest ih =>
    obtain ⟨k, r⟩ := e
    rw [cacheDelete_cons]
    by_cases hk : k = u
    · rw [if_pos hk, ih]
      by_cases h : u = url
      · simp [h]
      · have : ¬ k = url := by rw [hk]; exact h
        simp [h, cacheMatch, this]
    · rw [if_neg hk]
      by_cases h2 : k = url
      · have : ¬ u = url := by rw [← h2]; exact fun h => hk h.symm
        simp [cacheMatch, h2, this]
      · simp only [cacheMatch, if_neg h2]
        exact ih

theorem cacheMatch_append (c d : Cache) (url : Str) :
    cacheMatch (c ++ d) url
      = match cacheMatch c url with
        | some r => some r
        | none => cacheMatch d url := by
  induction c with
  | nil => simp [cacheMatch]
  | cons e rest ih =>
    obtain ⟨k, r⟩ := e
    by_cases h : k = url
    · simp [cacheMatch, h]
    · simp only [List.cons_append, cacheMatch, if_neg h]
      exact ih

theorem cacheMatch_put (c : Cache) (u url : Str) (r : Response) :
    cacheMatch (cachePut c u r) url = if u = url then some r else cacheMatch c url := by
  unfold cachePut
  rw [cacheMatch_append, cacheMatch_delete]
  by_cases h : u = url
  · simp [h, cacheMatch]
  · simp only [if_neg h, cacheMatch]
    cases cacheMatch c url <;> rfl

theorem cacheKeys_cons (k : Str) (r : Response) (rest : Cache) :
    cacheKeys ((k, r) :: rest) = k :: cacheKeys rest := rfl

theorem cacheMatch_of_mem_keys (c : Cache) (url : Str) (h : url ∈ cacheKeys c) :
    ∃ r, cacheMatch c url = some r := by
  induction c with
  | nil => cases h
  | cons e rest ih =>
    obtain ⟨k, r⟩ := e
    by_cases hk : k = url
    · exact ⟨r, by simp [cacheMatch, hk]⟩
    · rw [cacheKeys_cons] at h
      rcases List.mem_cons.mp h with h | h
      · exact absurd h.symm hk
      · obtain ⟨r', hr⟩ := ih h
        exact ⟨r', by simp only [cacheMatch, if_neg hk, hr]⟩

theorem mem_keys_of_cacheMatch (c : Cache) (url : Str) (r : Response)
    (h : cacheMatch c url = some r) : url ∈ cacheKeys c := by
  induction c with
  | nil => simp [cacheMatch] at h
  | cons e rest ih =>
    obtain ⟨k, r'⟩ := e
    rw [cacheKeys_cons]
    by_cases hk : k = url
    · rw [hk]; exact List.mem_cons_self _ _
    · simp only [cacheMatch, if_neg hk] at h
      exact List.mem_cons_of_mem _ (ih h)

theorem cacheMatch_copied (staging : Cache) (url : Str) :
    ∀ (keys : List Str) (c : Cache), (∀ u ∈ keys, u ∈ cacheKeys staging) →
      cacheMatch (copied staging keys c) url
        = if url ∈ keys then cacheMatch staging url else cacheMatch c url := by
  intro keys
  induction keys with
  | nil => intro c _; simp [copied]
  | cons u rest ih =>
    intro c hk
    obtain ⟨r, hr⟩ := cacheMatch_of_mem_keys staging u (hk u (List.mem_cons_self _ _))
    have hrest : ∀ v ∈ rest, v ∈ cacheKeys staging :=
      fun v hv => hk v (List.mem_cons_of_mem _ hv)
    simp only [copied, hr]
    rw [ih _ hrest, cacheMatch_put]
    by_cases h1 : url ∈ rest
    · simp [h1]
    · by_cases h2 : u = url
      · subst h2
        simp [hr]
      · have h3 : ¬ url = u := fun h => h2 h.symm
        simp [h1, h2, h3]

theorem cacheMatch_pruned (env : Env) (oldManifest : Manifest) (url : Str) :
    ∀ (keys : List Str) (c : Cache),
      cacheMatch (pruned env oldManifest keys c) url
        = if url ∈ keys ∧ stale env oldManifest (activateKey env.origin url) = true then none
          else cacheMatch c url := by
  intro keys
  induction keys with
  | nil => intro c; simp [pruned]
  | cons u rest ih =>
    intro c
    simp only [pruned]
    rw [ih]
    by_cases hs : stale env oldManifest (activateKey env.origin url) = true
    · by_cases h1 : url ∈ rest
      · simp [h1, hs]
      · by_cases h2 : u = url
        · subst h2
          simp [hs, cacheMatch_delete]
        · have h3 : ¬ url = u := fun h => h2 h.symm
          simp only [h1, hs, List.mem_cons, h3, or_self, false_and, if_false]
          split
          · rw [cacheMatch_delete, if_neg h2]
          · rfl
    · have hs2 : stale env oldManifest (activateKey env.origin url) = false := by
        simpa using hs
      simp only [hs2, Bool.false_eq_true, and_false, if_false]
      by_cases h2 : u = url
      · subst h2
        simp [hs2]
      · by_cases hu : stale env oldManifest (activateKey env.origin u) = true
        · simp only [hu, if_true]
          rw [cacheMatch_delete, if_neg h2]
        · simp [hu]

theorem pruned_eq_self (env : Env) (oldManifest : Manifest) :
    ∀ (keys : List Str) (c : Cache),
      (∀ u ∈ keys, stale env oldManifest (activateKey env.origin u) = false) →
      pruned env oldManifest keys c = c := by
  intro keys
  induction keys with
  | nil => intro c _; rfl
  | cons u rest ih =>
    intro c h
    simp only [pruned, h u (List.mem_cons_self _ _)]
    exact ih c (fun v hv => h v (List.mem_cons_of_mem _ hv))

/-! ## Runs of the loops -/

theorem copyLoop_none :
    ∀ (keys : List Str) (c staging : Cache) (m : Option (Option Snapshot)),
      (∀ u ∈ keys, u ∈ cacheKeys staging) →
      copyLoop keys none ⟨some c, some staging, m⟩
        = .ok (none, ⟨some (copied staging keys c), some staging, m⟩) := by
  intro keys
  induction keys with
  | nil => intro c t m _; rfl
  | cons u rest ih =>
    intro c t m hk
    obtain ⟨r, hr⟩ := cacheMatch_of_mem_keys _ u (hk u (List.mem_cons_self _ _))
    have hrest : ∀ v ∈ rest, v ∈ cacheKeys t :=
      fun v hv => hk v (List.mem_cons_of_mem _ hv)
    simp only [copyLoop, await, bind, Except.bind, CacheStorage.staging, hr, copied,
      CacheStorage.content, Option.getD_some]
    exact ih _ t m hrest

theorem diffLoop_none (env : Env) (oldManifest : Manifest) :
    ∀ (keys : List Str) (c : Cache) (t : Option Cache) (m : Option (Option Snapshot)),
      diffLoop env oldManifest keys none ⟨some c, t, m⟩
        = .ok (none, ⟨some (pruned env oldManifest keys c), t, m⟩) := by
  intro keys
  induction keys with
  | nil => intro c t m; rfl
  | cons u rest ih =>
    intro c t m
    simp only [diffLoop, pruned]
    split
    · simp only [await, bind, Except.bind, CacheStorage.content, Option.getD_some]
      exact ih _ t m
    · exact ih _ t m

theorem copyLoop_ok :
    ∀ (keys : List Str) (fault : Option Nat) (s : CacheStorage) (r : Option Nat × CacheStorage),
      copyLoop keys fault s = .ok r → copyLoop keys none s = .ok (none, r.2) := by
  intro keys
  induction keys with
  | nil =>
    intro fault s r h
    simp only [copyLoop, Except.ok.injEq] at h ⊢
    rw [← h]
  | cons u rest ih =>
    intro fault s r h
    rcases fault with _ | _ | _ | n
    · simp only [copyLoop, await, bind, Except.bind] at h ⊢
      split at h
      · cases h
      · rename_i response hresp
        exact ih _ _ _ h
    · simp [copyLoop, await, bind, Except.bind] at h
    · simp [copyLoop, await, bind, Except.bind] at h
    · simp only [copyLoop, await, bind, Except.bind] at h ⊢
      split at h
      · cases h
      · rename_i response hresp
        exact ih _ _ _ h

theorem diffLoop_ok (env : Env) (oldManifest : Manifest) :
    ∀ (keys : List Str) (fault : Option Nat) (s : CacheStorage) (r : Option Nat × CacheStorage),
      diffLoop env oldManifest keys fault s = .ok r →
      diffLoop env oldManifest keys none s = .ok (none, r.2) := by
  intro keys
  induction keys with
  | nil =>
    intro fault s r h
    simp only [diffLoop, Except.ok.injEq] at h ⊢
    rw [← h]
  | cons u rest ih =>
    intro fault s r h
    simp only [diffLoop] at h ⊢
    split
    · rename_i hst
      simp only [hst, if_true] at h
      rcases fault with _ | _ | n
      · simp only [await, bind, Except.bind] at h ⊢
        exact ih _ _ _ h
      · simp [await, bind, Except.bind] at h
      · simp only [await, bind, Except.bind] at h ⊢
        exact ih _ _ _ h
    · rename_i hst
      simp only [hst] at h
      exact ih _ _ _ h

/-! ## Runs of the `try` block -/

theorem activateTry_fresh (env : Env) (s : CacheStorage) (h : s.snapshot = none) :
    activateTry env s none = .ok (freshCaches env s) := by
  obtain ⟨c, t, m⟩ := s
  simp only [CacheStorage.snapshot] at h
  simp only [activateTry, await, bind, Except.bind, CacheStorage.snapshot, CacheStorage.staging,
    CacheStorage.content, Option.getD_some, h, pure, Except.pure, freshCaches]
  rw [copyLoop_none _ _ _ _ (fun u hu => hu)]
  simp

theorem activateTry_upgrade (env : Env) (s : CacheStorage) (oldManifest : Manifest)
    (h : s.snapshot = some (.json oldManifest)) :
    activateTry env s none = .ok (upgradedCaches env oldManifest s) := by
  obtain ⟨c, t, m⟩ := s
  simp only [CacheStorage.snapshot] at h
  simp only [activateTry, await, bind, Except.bind, CacheStorage.snapshot, CacheStorage.staging,
    CacheStorage.content, Option.getD_some, h, pure, Except.pure, upgradedCaches]
  rw [diffLoop_none]
  simp only [Option.getD_some]
  rw [copyLoop_none _ _ _ _ (fun u hu => hu)]

theorem await_bind_ok {α : Type} (s : CacheStorage) (k : Option Nat → Try α)
    (hk : ∀ fault r, k fault = .ok r → k none = .ok r) (fault : Option Nat) (r : α)
    (h : (await fault s >>= k) = .ok r) : (await none s >>= k) = .ok r := by
  rcases fault with _ | _ | n
  · exact h
  · simp [await, bind, Except.bind] at h
  · simp only [await, bind, Except.bind] at h ⊢
    exact hk _ _ h

theorem copyLoop_bind_ok {α : Type} (keys : List Str) (s : CacheStorage)
    (k : Option Nat × CacheStorage → Try α)
    (hk : ∀ fault t r, k (fault, t) = .ok r → k (none, t) = .ok r) (fault : Option Nat) (r : α)
    (h : (copyLoop keys fault s >>= k) = .ok r) : (copyLoop keys none s >>= k) = .ok r := by
  cases hc : copyLoop keys fault s with
  | error e => simp [hc, bind, Except.bind] at h
  | ok v =>
    rw [copyLoop_ok keys fault s v hc]
    rw [hc] at h
    simp only [bind, Except.bind] at h ⊢
    exact hk v.1 v.2 r h

theorem diffLoop_bind_ok {α : Type} (env : Env) (oldManifest : Manifest) (keys : List Str)
    (s : CacheStorage) (k : Option Nat × CacheStorage → Try α)
    (hk : ∀ fault t r, k (fault, t) = .ok r → k (none, t) = .ok r) (fault : Option Nat) (r : α)
    (h : (diffLoop env oldManifest keys fault s >>= k) = .ok r) :
    (diffLoop env oldManifest keys none s >>= k) = .ok r := by
  cases hc : diffLoop env oldManifest keys fault s with
  | error e => simp [hc, bind, Except.bind] at h
  | ok v =>
    rw [diffLoop_ok env oldManifest keys fault s v hc]
    rw [hc] at h
    simp only [bind, Except.bind] at h ⊢
    exact hk v.1 v.2 r h

theorem activateTry_ok (env : Env) (s : CacheStorage) (fault : Option Nat) (r : CacheStorage)
    (h : activateTry env s fault = .ok r) : activateTry env s none = .ok r := by
  unfold activateTry at h ⊢
  revert h
  refine await_bind_ok _ _ ?_ fault r
  intro fault r
  refine await_bind_ok _ _ ?_ fault r
  intro fault r
  refine await_bind_ok _ _ ?_ fault r
  intro fault r
  refine await_bind_ok _ _ ?_ fault r
  intro fault r
  dsimp only
  split
  · refine await_bind_ok _ _ ?_ fault r
    intro fault r
    refine await_bind_ok _ _ ?_ fault r
    intro fault r
    refine await_bind_ok _ _ ?_ fault r
    intro fault r
    refine copyLoop_bind_ok _ _ _ ?_ fault r
    intro fault t r
    refine await_bind_ok _ _ ?_ fault r
    intro fault r
    refine await_bind_ok _ _ ?_ fault r
    intro fault r h
    exact h
  · refine await_bind_ok _ _ ?_ fault r
    intro fault r
    split
    · exact fun h => h
    · refine await_bind_ok _ _ ?_ fault r
      intro fault r
      refine diffLoop_bind_ok _ _ _ _ _ ?_ fault r
      intro fault t r
      refine await_bind_ok _ _ ?_ fault r
      intro fault r
      refine copyLoop_bind_ok _ _ _ ?_ fault r
      intro fault t r
      refine await_bind_ok _ _ ?_ fault r
      intro fault r
      refine await_bind_ok _ _ ?_ fault r
      intro fault r h
      exact h

theorem activateTry_corrupt (env : Env) (s : CacheStorage) (h : s.snapshot = some .corrupt)
    (fault : Option Nat) : ∃ e, activateTry env s fault = .error e := by
  cases hr : activateTry env s fault with
  | error e => exact ⟨e, rfl⟩
  | ok r =>
    have h2 := activateTry_ok env s fault r hr
    obtain ⟨c, t, m⟩ := s
    simp only [CacheStorage.snapshot] at h
    simp [activateTry, await, bind, Except.bind, CacheStorage.snapshot, h] at h2

/-- An activation that threw no exception fulfils its promise and leaves the caches of
`freshCaches` or of `upgradedCaches`, according to the manifest snapshot. -/
theorem activate_success (env : Env) (s : CacheStorage) (tryFault catchFault : Option Nat)
    (h : (activate env s tryFault catchFault).caught = none) :
    (activate env s tryFault catchFault).promise = .fulfilled () ∧
    ((s.snapshot = none ∧ (activate env s tryFault catchFault).caches = freshCaches env s) ∨
     (∃ oldManifest, s.snapshot = some (.json oldManifest) ∧
        (activate env s tryFault catchFault).caches = upgradedCaches env oldManifest s)) := by
  unfold activate at h ⊢
  cases hr : activateTry env s tryFault with
  | error e =>
    rw [hr] at h
    obtain ⟨e1, e2⟩ := e
    simp at h
  | ok r =>
    have h2 := activateTry_ok env s tryFault r hr
    simp only [true_and]
    cases hs : s.snapshot with
    | none =>
      left
      rw [activateTry_fresh env s hs] at h2
      exact ⟨rfl, (Except.ok.inj h2).symm⟩
    | some snap =>
      cases snap with
      | corrupt =>
        obtain ⟨e, he⟩ := activateTry_corrupt env s hs none
        rw [he] at h2
        cases h2
      | json oldManifest =>
        right
        rw [activateTry_upgrade env s oldManifest hs] at h2
        exact ⟨oldManifest, rfl, (Except.ok.inj h2).symm⟩

/-- When no cache operation rejects, a first activation completes. -/
theorem activate_fresh (env : Env) (s : CacheStorage) (catchFault : Option Nat)
    (h : s.snapshot = none) :
    activate env s none catchFault
      = { promise := .fulfilled (), caught := none, caches := freshCaches env s } := by
  unfold activate
  rw [activateTry_fresh env s h]

/-- When no cache operation rejects, an upgrade activation completes. -/
theorem activate_upgrade (env : Env) (s : CacheStorage) (catchFault : Option Nat)
    (oldManifest : Manifest) (h : s.snapshot = some (.json oldManifest)) :
    activate env s none catchFault
      = { promise := .fulfilled (), caught := none,
          caches := upgradedCaches env oldManifest s } := by
  unfold activate
  rw [activateTry_upgrade env s oldManifest h]

/-! ## The staleness test -/

theorem looseNe_self (toPrimitive : Str → Str) (v : JSVal) : looseNe toPrimitive v v = false := by
  cases v <;> simp [looseNe]

theorem truthy_of_ownProp (M : Manifest) (key c : Str) (h : ownProp M key = some c)
    (hne : c ≠ []) : truthy (jsGet M key) = true := by
  simp [jsGet, h, truthy, hne]

/-- An entry whose path has the same non-empty checksum in both manifests is not stale. -/
theorem stale_unchanged (env : Env) (oldManifest : Manifest) (key c : Str)
    (hnew : ownProp env.RESOURCES key = some c) (hold : ownProp oldManifest key = some c)
    (hne : c ≠ []) : stale env oldManifest key = false := by
  simp [stale, jsGet, hnew, hold, truthy, looseNe, hne]

/-- A path that is no own key of the manifest and no name inherited from `Object.prototype`
is stale. -/
theorem stale_absent (env : Env) (oldManifest : Manifest) (key : Str)
    (hnew : ownProp env.RESOURCES key = none) (hproto : key ∉ objectPrototype) :
    stale env oldManifest key = true := by
  simp [stale, jsGet, hnew, hproto, truthy]

/-- A path whose checksums in the two manifests differ is stale. -/
theorem stale_changed (env : Env) (oldManifest : Manifest) (key c d : Str)
    (hnew : ownProp env.RESOURCES key = some c) (hold : ownProp oldManifest key = some d)
    (hne : c ≠ d) : stale env oldManifest key = true := by
  simp [stale, jsGet, hnew, hold, looseNe, hne]

/-- With the manifest unchanged, a path is stale exactly when the manifest test rejects it. -/
theorem stale_same_manifest (env : Env) (key : Str) :
    stale env env.RESOURCES key = !truthy (jsGet env.RESOURCES key) := by
  simp [stale, looseNe_self]

/-! ## Upgrade activation -/

/-- The content entries after an upgrade activation that threw no exception: a staged
request has the staged response, any other request keeps its response unless it is stale. -/
theorem cacheMatch_upgraded (env : Env) (oldManifest : Manifest) (s : CacheStorage)
    (url : Str) :
    cacheMatch (upgradedCaches env oldManifest s).content url
      = match cacheMatch s.staging url with
        | some r => some r
        | none =>
          if url ∈ cacheKeys s.content ∧ stale env oldManifest (activateKey env.origin url) = true
          then none else cacheMatch s.content url := by
  simp only [upgradedCaches, CacheStorage.content, Option.getD_some]
  rw [cacheMatch_copied _ _ _ _ (fun u hu => hu), cacheMatch_pruned]
  by_cases hk : url ∈ cacheKeys s.staging
  · obtain ⟨r, hr⟩ := cacheMatch_of_mem_keys _ _ hk
    simp [hk, hr]
  · have hnone : cacheMatch s.staging url = none := by
      cases hm : cacheMatch s.staging url with
      | none => rfl
      | some r => exact absurd (mem_keys_of_cacheMatch _ _ _ hm) hk
    simp only [hk, if_false, hnone]

/-- After an upgrade activation that threw no exception, a stale content entry has given
way to the staged response of its request, if there is one. -/
theorem stale_entry_replaced (env : Env) (s : CacheStorage) (tryFault catchFault : Option Nat)
    (oldManifest : Manifest) (url : Str)
    (hok : (activate env s tryFault catchFault).caught = none)
    (hsnap : s.snapshot = some (.json oldManifest))
    (hmem : url ∈ cacheKeys s.content)
    (hstale : stale env oldManifest (activateKey env.origin url) = true) :
    cacheMatch (activate env s tryFault catchFault).caches.content url
      = cacheMatch s.staging url := by
  rcases (activate_success env s tryFault catchFault hok).2 with ⟨h1, _⟩ | ⟨old, h1, h2⟩
  · rw [hsnap] at h1; cases h1
  · rw [hsnap] at h1
    cases h1
    rw [h2, cacheMatch_upgraded]
    cases cacheMatch s.staging url with
    | some r => rfl
    | none => simp [hmem, hstale]

/-- C1 (as amended): after an upgrade activation that threw no exception, a content entry
whose origin-relative path (the empty path read as "/") is a key of the current manifest with
the same non-empty checksum as in the previous manifest is still in content; it holds its
stored response unchanged when staging has no entry for its request, and the staged
response otherwise. -/
theorem unchanged_entry_preserved (env : Env) (s : CacheStorage)
    (tryFault catchFault : Option Nat) (oldManifest : Manifest) (url : Str) (r : Response)
    (c : Str)
    (hok : (activate env s tryFault catchFault).caught = none)
    (hsnap : s.snapshot = some (.json oldManifest))
    (hentry : cacheMatch s.content url = some r)
    (hnew : ownProp env.RESOURCES (activateKey env.origin url) = some c)
    (hold : ownProp oldManifest (activateKey env.origin url) = some c)
    (hne : c ≠ []) :
    cacheMatch (activate env s tryFault catchFault).caches.content url
      = some ((cacheMatch s.staging url).getD r) := by
  rcases (activate_success env s tryFault catchFault hok).2 with ⟨h1, _⟩ | ⟨old, h1, h2⟩
  · rw [hsnap] at h1; cases h1
  · rw [hsnap] at h1
    cases h1
    rw [h2, cacheMatch_upgraded]
    cases cacheMatch s.staging url with
    | some r2 => rfl
    | none => simp [stale_unchanged env oldManifest _ c hnew hold hne, hentry]

/-- Witness of C1: upgrading `{"a.js": "hash1", "b.js": "hash2"}` to
`{"a.js": "hash1", "b.js": "hash3"}` with `b.js` staged leaves the entry of `a.js` as it
was. -/
theorem unchanged_entry_preserved_witness :
    (activate exUpgradeEnv exUpgradeState none none).caught = none ∧
    cacheMatch exUpgradeState.content (exUrl "a.js") = some (exResponse "A") ∧
    cacheMatch exUpgradeState.staging (exUrl "a.js") = none ∧
    cacheMatch (activate exUpgradeEnv exUpgradeState none none).caches.content (exUrl "a.js")
      = some (exResponse "A") :=
  ⟨by decide, by decide, by decide,
    unchanged_entry_preserved exUpgradeEnv exUpgradeState none none exOldManifest
      (exUrl "a.js") (exResponse "A") "hash1".toList (by decide) (by decide) (by decide)
      (by decide) (by decide) (by decide)⟩

/-- Counterexample to C1 as stated: with the manifest unchanged (`a.js` has checksum `hash1`
before and after), a content entry of `a.js` is replaced by the staged response of the same
request. -/
theorem unchanged_entry_replaced_by_staging :
    (activate exEnv exOverwriteState none none).caught = none ∧
    exOverwriteState.snapshot = some (.json exManifest) ∧
    ownProp exEnv.RESOURCES (activateKey exEnv.origin (exUrl "a.js")) = some "hash1".toList ∧
    ownProp exManifest (activateKey exEnv.origin (exUrl "a.js")) = some "hash1".toList ∧
    cacheMatch exOverwriteState.content (exUrl "a.js") = some (exResponse "old") ∧
    cacheMatch (activate exEnv exOverwriteState none none).caches.content (exUrl "a.js")
      = some (exResponse "new") ∧
    exResponse "new" ≠ exResponse "old" := by
  decide

/-- C2 (the code at the failing input): with the manifest `{"a.js": "hash1"}` unchanged and
nothing staged, a content entry for `/constructor`, which is no key of the manifest, is
still in content after an upgrade activation that threw no exception. -/
theorem inherited_name_entry_kept :
    (activate exEnv exInheritedState none none).caught = none ∧
    exInheritedState.snapshot = some (.json exManifest) ∧
    ownProp exEnv.RESOURCES (activateKey exEnv.origin (exUrl "constructor")) = none ∧
    cacheMatch exInheritedState.staging (exUrl "constructor") = none ∧
    cacheMatch (activate exEnv exInheritedState none none).caches.content
      (exUrl "constructor") = some (exResponse "page") := by
  decide

/-! ## First activation -/

theorem cacheMatch_none_of_not_mem (c : Cache) (url : Str) (h : url ∉ cacheKeys c) :
    cacheMatch c url = none := by
  cases hm : cacheMatch c url with
  | none => rfl
  | some r => exact absurd (mem_keys_of_cacheMatch _ _ _ hm) h

theorem cacheDelete_of_not_mem (c : Cache) (url : Str) (h : url ∉ cacheKeys c) :
    cacheDelete c url = c := by
  induction c with
  | nil => rfl
  | cons e rest ih =>
    obtain ⟨k, r⟩ := e
    rw [cacheKeys_cons] at h
    have hk : ¬ k = url := fun hk => h (by rw [hk]; exact List.mem_cons_self _ _)
    have hrest : url ∉ cacheKeys rest := fun hm => h (List.mem_cons_of_mem _ hm)
    rw [cacheDelete_cons, if_neg hk, ih hrest]

theorem cacheKeys_append (c d : Cache) : cacheKeys (c ++ d) = cacheKeys c ++ cacheKeys d := by
  simp [cacheKeys]

theorem copied_append :
    ∀ (suf pre : Cache), (cacheKeys (pre ++ suf)).Nodup →
      copied (pre ++ suf) (cacheKeys suf) pre = pre ++ suf := by
  intro suf
  induction suf with
  | nil => intro pre _; simp [cacheKeys, copied]
  | cons e rest ih =>
    intro pre hnd
    obtain ⟨u, r⟩ := e
    have hu : u ∉ cacheKeys pre := by
      rw [cacheKeys_append, cacheKeys_cons] at hnd
      intro hmem
      exact (List.nodup_append.mp hnd).2.2 hmem (List.mem_cons_self _ _)
    have hm : cacheMatch (pre ++ (u, r) :: rest) u = some r := by
      rw [cacheMatch_append, cacheMatch_none_of_not_mem pre u hu]
      simp [cacheMatch]
    rw [cacheKeys_cons]
    simp only [copied, hm, cachePut, cacheDelete_of_not_mem pre u hu]
    have hsplit : pre ++ (u, r) :: rest = (pre ++ [(u, r)]) ++ rest := by simp
    rw [hsplit] at hnd ⊢
    exact ih _ hnd

/-- Copying a staging cache without repeated requests into an empty cache reproduces it. -/
theorem copied_self (staging : Cache) (h : (cacheKeys staging).Nodup) :
    copied staging (cacheKeys staging) [] = staging := by
  have := copied_append staging [] (by simpa using h)
  simpa using this

/-- C3: when the manifest snapshot holds no previous manifest, an activation that threw no
exception leaves in content exactly the entries of staging (every request has the response
it had in staging; the same list of entries when no request is repeated in staging), leaves
staging deleted and leaves the snapshot holding the current manifest.  Such an activation
exists: it is the one in which no cache operation rejects. -/
theorem first_activation (env : Env) (s : CacheStorage) (tryFault catchFault : Option Nat)
    (hsnap : s.snapshot = none)
    (hok : (activate env s tryFault catchFault).caught = none) :
    (∀ url, cacheMatch (activate env s tryFault catchFault).caches.content url
        = cacheMatch s.staging url) ∧
    ((cacheKeys s.staging).Nodup →
      (activate env s tryFault catchFault).caches.CACHE_NAME = some s.staging) ∧
    (activate env s tryFault catchFault).caches.CACHE_NAME ≠ none ∧
    (activate env s tryFault catchFault).caches.TEMP = none ∧
    (activate env s tryFault catchFault).caches.MANIFEST = some (some (.json env.RESOURCES)) ∧
    (activate env s none catchFault).caught = none := by
  rcases (activate_success env s tryFault catchFault hok).2 with ⟨_, h2⟩ | ⟨old, h1, _⟩
  · rw [h2]
    refine ⟨?_, ?_, ?_, rfl, rfl, ?_⟩
    · intro url
      simp only [freshCaches, CacheStorage.content, Option.getD_some]
      rw [cacheMatch_copied _ _ _ _ (fun u hu => hu)]
      by_cases hk : url ∈ cacheKeys s.staging
      · simp [hk]
      · simp [hk, cacheMatch_none_of_not_mem _ _ hk, cacheMatch]
    · intro hnd
      simp only [freshCaches]
      rw [copied_self _ hnd]
    · simp [freshCaches]
    · rw [activate_fresh env s catchFault hsnap]
  · rw [hsnap] at h1; cases h1

/-- Witness of C3: the fresh install with manifest `{"a.js": "hash1"}` and `a.js` staged ends
with content holding `a.js`, the snapshot holding the manifest, and no staging. -/
theorem first_activation_witness :
    exInstallState.snapshot = none ∧
    (activate exEnv exInstallState none none).caught = none ∧
    (activate exEnv exInstallState none none).caches.CACHE_NAME
      = some [(exUrl "a.js", exResponse "A")] ∧
    (activate exEnv exInstallState none none).caches.TEMP = none ∧
    (activate exEnv exInstallState none none).caches.MANIFEST
      = some (some (.json exManifest)) :=
  have h := first_activation exEnv exInstallState none none (by decide) (by decide)
  ⟨by decide, by decide, h.2.1 (by decide), h.2.2.2.1, h.2.2.2.2.1⟩

/-! ## Exceptions during activation -/

/-- C4: when an exception is thrown in the `try` block of an activation, whatever the branch
and the operation that threw, and the deletions of the `catch` clause are carried out, all
three caches are absent afterwards and the promise of the activation is fulfilled: the
error does not reach the caller. -/
theorem exception_wipes_caches (env : Env) (s : CacheStorage) (tryFault : Option Nat)
    (e : Err) (h : (activate env s tryFault none).caught = some e) :
    (activate env s tryFault none).caches
        = { CACHE_NAME := none, TEMP := none, MANIFEST := none } ∧
    (activate env s tryFault none).promise = .fulfilled () := by
  unfold activate at h ⊢
  cases hr : activateTry env s tryFault with
  | ok r => rw [hr] at h; cases h
  | error err =>
    obtain ⟨e1, s1⟩ := err
    simp [activateCatch, await]

/-- Witness of C4: an upgrade activation whose first deletion in the diff loop rejects. -/
theorem exception_wipes_caches_witness :
    (activate exUpgradeEnv exUpgradeState (some 6) none).caught = some .storage ∧
    (activate exUpgradeEnv exUpgradeState (some 6) none).caches
        = { CACHE_NAME := none, TEMP := none, MANIFEST := none } ∧
    (activate exUpgradeEnv exUpgradeState (some 6) none).promise = .fulfilled () :=
  ⟨by decide, exception_wipes_caches exUpgradeEnv exUpgradeState (some 6) .storage (by decide)⟩

/-! ## Requests compared up to the fragment -/

theorem sameRequest_self (u : Str) : sameRequest u u = true := by
  simp [sameRequest]

theorem sameRequest_of_eq (u v : Str) (h : u = v) : sameRequest u v = true := by
  rw [h]
  exact sameRequest_self v

theorem requestDelete_cons (k : Str) (r : Response) (rest : Cache) (url : Str) :
    requestDelete ((k, r) :: rest) url
      = if sameRequest k url = true then requestDelete rest url
        else (k, r) :: requestDelete rest url := by
  unfold requestDelete
  rw [List.filter_cons]
  by_cases h : sameRequest k url = true <;> simp [h]

theorem requestDelete_of_requestMatch_none (c : Cache) (url : Str)
    (h : requestMatch c url = none) : requestDelete c url = c := by
  induction c with
  | nil => rfl
  | cons e rest ih =>
    obtain ⟨k, r⟩ := e
    by_cases hk : sameRequest k url = true
    · simp [requestMatch, hk] at h
    · simp only [requestMatch, hk] at h
      rw [requestDelete_cons, if_neg hk, ih h]

theorem cacheMatch_none_of_requestMatch_none (c : Cache) (url : Str)
    (h : requestMatch c url = none) : cacheMatch c url = none := by
  induction c with
  | nil => rfl
  | cons e rest ih =>
    obtain ⟨k, r⟩ := e
    by_cases hk : sameRequest k url = true
    · simp [requestMatch, hk] at h
    · simp only [requestMatch, hk] at h
      have hne : ¬ k = url := fun heq => hk (sameRequest_of_eq k url heq)
      simp only [cacheMatch, if_neg hne]
      exact ih h

theorem requestMatch_append (c d : Cache) (url : Str) :
    requestMatch (c ++ d) url
      = match requestMatch c url with
        | some r => some r
        | none => requestMatch d url := by
  induction c with
  | nil => simp [requestMatch]
  | cons e rest ih =>
    obtain ⟨k, r⟩ := e
    by_cases h : sameRequest k url = true
    · simp [requestMatch, h]
    · simp only [List.cons_append, requestMatch, h]
      exact ih

theorem requestMatch_requestDelete (c : Cache) (u url : Str) :
    requestMatch (requestDelete c u) url
      = if sameRequest u url = true then none else requestMatch c url := by
  have htrans : ∀ k : Str, sameRequest k u = true →
      sameRequest k url = sameRequest u url := by
    intro k hk
    simp only [sameRequest, decide_eq_true_eq] at hk
    simp only [sameRequest, hk]
  induction c with
  | nil => simp [requestDelete, requestMatch]
  | cons e rest ih =>
    obtain ⟨k, r⟩ := e
    rw [requestDelete_cons]
    by_cases hk : sameRequest k u = true
    · rw [if_pos hk, ih]
      by_cases hu : sameRequest u url = true
      · simp [hu]
      · have hku : ¬ sameRequest k url = true := by rw [htrans k hk]; exact hu
        simp [hu, requestMatch, hku]
    · rw [if_neg hk]
      by_cases hku : sameRequest k url = true
      · have hu : ¬ sameRequest u url = true := by
          intro hu
          apply hk
          simp only [sameRequest, decide_eq_true_eq] at hku hu ⊢
          rw [hku, hu]
        simp [requestMatch, hku, hu]
      · simp only [requestMatch, hku]
        exact ih

/-- What `put` leaves when it is refused. -/
theorem requestPut_refused (c : Cache) (url : Str) (r : Response) (h : r.status = 206) :
    requestPut c url r = c := by
  simp [requestPut, Response.refused, h]

/-- What `put` leaves when it is carried out. -/
theorem requestPut_accepted (c : Cache) (url : Str) (r : Response) (h : r.status ≠ 206) :
    requestPut c url r = requestDelete c url ++ [(url, r)] := by
  simp [requestPut, Response.refused, h]

/-- After a `put` that is carried out, the request has the response that was put and every
other request has what it had. -/
theorem requestMatch_requestPut (c : Cache) (u url : Str) (r : Response)
    (h : r.status ≠ 206) :
    requestMatch (requestPut c u r) url
      = if sameRequest u url = true then some r else requestMatch c url := by
  rw [requestPut_accepted c u r h, requestMatch_append, requestMatch_requestDelete]
  by_cases hu : sameRequest u url = true
  · simp [hu, requestMatch]
  · simp only [hu, requestMatch]
    cases requestMatch c url <;> rfl

/-- A `put` that is carried out for a request that content has no entry for appends the
entry, stored under the URL of the request. -/
theorem requestPut_of_requestMatch_none (c : Cache) (url : Str) (r : Response)
    (h : r.status ≠ 206) (hmiss : requestMatch c url = none) :
    requestPut c url r = c ++ [(url, r)] ∧ requestPut c url r = cachePut c url r := by
  have hnot : url ∉ cacheKeys c := by
    intro hmem
    obtain ⟨r2, hr2⟩ := cacheMatch_of_mem_keys c url hmem
    rw [cacheMatch_none_of_requestMatch_none c url hmiss] at hr2
    cases hr2
  rw [requestPut_accepted c url r h, requestDelete_of_requestMatch_none c url hmiss]
  exact ⟨rfl, by rw [cachePut, cacheDelete_of_not_mem c url hnot]⟩

/-- In a cache with one entry for a request at most, `match` finds for a request of
`keys()` the response stored under its URL. -/
theorem requestMatch_eq_cacheMatch (c : Cache) (u : Str)
    (hone : ((cacheKeys c).map withoutFragment).Nodup) (hu : u ∈ cacheKeys c) :
    requestMatch c u = cacheMatch c u := by
  induction c with
  | nil => cases hu
  | cons e rest ih =>
    obtain ⟨k, r⟩ := e
    rw [cacheKeys_cons, List.map_cons, List.nodup_cons] at hone
    by_cases hk : k = u
    · simp [requestMatch, cacheMatch, hk, sameRequest_self]
    · have hmem : u ∈ cacheKeys rest := by
        rw [cacheKeys_cons] at hu
        rcases List.mem_cons.mp hu with h | h
        · exact absurd h.symm hk
        · exact h
      have hdiff : ¬ sameRequest k u = true := by
        intro hs
        simp only [sameRequest, decide_eq_true_eq] at hs
        apply hone.1
        rw [hs]
        exact List.mem_map_of_mem _ hmem
      simp only [requestMatch, hdiff, cacheMatch, if_neg hk]
      exact ih hone.2 hmem

/-- In a cache with one entry for a request at most, `delete` removes for a request of
`keys()` the entry stored under its URL. -/
theorem requestDelete_eq_cacheDelete (c : Cache) (u : Str)
    (hone : ((cacheKeys c).map withoutFragment).Nodup) (hu : u ∈ cacheKeys c) :
    requestDelete c u = cacheDelete c u := by
  have hall : ∀ k ∈ cacheKeys c, (sameRequest k u = true ↔ k = u) := by
    intro k hk
    constructor
    · intro hs
      simp only [sameRequest, decide_eq_true_eq] at hs
      exact List.inj_on_of_nodup_map hone hk hu hs
    · exact sameRequest_of_eq k u
  unfold requestDelete cacheDelete
  apply List.filter_congr
  intro e he
  have hk : e.1 ∈ cacheKeys c := List.mem_map_of_mem _ he
  by_cases h : e.1 = u
  · simp [h, sameRequest_self]
  · have : ¬ sameRequest e.1 u = true := fun hs => h ((hall e.1 hk).mp hs)
    simp [h, this]

/-- A `put` of a response that is not refused, for a request that the cache holds under no
other URL, writes the response under the URL of the request. -/
theorem requestPut_eq_cachePut (c : Cache) (url : Str) (r : Response) (h : r.status ≠ 206)
    (hsame : ∀ k ∈ cacheKeys c, sameRequest k url = true → k = url) :
    requestPut c url r = cachePut c url r := by
  rw [requestPut_accepted c url r h, cachePut]
  congr 1
  unfold requestDelete cacheDelete
  apply List.filter_congr
  intro e he
  have hk : e.1 ∈ cacheKeys c := List.mem_map_of_mem _ he
  by_cases heq : e.1 = url
  · simp [heq, sameRequest_self]
  · have : ¬ sameRequest e.1 url = true := fun hs => heq (hsame e.1 hk hs)
    simp [heq, this]

/-! ## The `fetch` listener -/

/-- The listener declines exactly the requests that are not `GET` and those whose key fails
the test `RESOURCES[key]`. -/
theorem fetchListener_declined_iff (env : Env) (net : Network) (s : CacheStorage)
    (request : Request) :
    (fetchListener env net s request).1 = .declined ↔
      (request.method ≠ GET ∨
        truthy (jsGet env.RESOURCES (fetchKey env.origin request.url)) = false) := by
  unfold fetchListener
  by_cases hm : request.method = GET
  · by_cases ht : truthy (jsGet env.RESOURCES (fetchKey env.origin request.url)) = true
    · simp only [hm, ne_eq, not_true_eq_false, if_false, ht, Bool.not_true, false_or]
      by_cases hr : fetchKey env.origin request.url = rootKey
      · simp only [hr, if_true, onlineFirst]
        cases net request with
        | ok r => simp
        | error e => cases requestMatch s.content request.url <;> simp
      · simp only [hr, if_false]
        cases requestMatch s.content request.url with
        | some r => simp
        | none =>
          cases net request with
          | ok r => by_cases hok : r.ok = true <;> simp [hok]
          | error e => simp
    · simp [hm, ht]
  · simp [hm]

/-- A declined request leaves the caches as they are. -/
theorem fetchListener_declined_caches (env : Env) (net : Network) (s : CacheStorage)
    (request : Request) (h : (fetchListener env net s request).1 = .declined) :
    (fetchListener env net s request).2 = s := by
  rcases (fetchListener_declined_iff env net s request).mp h with hm | ht
  · simp [fetchListener, hm]
  · by_cases hm : request.method = GET <;> simp [fetchListener, hm, ht]

/-- C5 (the code at the failing input): with the manifest `{"a.js": "hash1"}`, the key of a
`GET` request for `/constructor` is no key of the manifest, yet the listener responds to it
and opens the content cache; a `GET` request for `/missing-page` is declined. -/
theorem inherited_name_request_intercepted :
    ownProp exEnv.RESOURCES (fetchKey exEnv.origin (exGet "constructor").url) = none ∧
    fetchListener exEnv exNotFound exEmpty (exGet "constructor")
      = (.respondWith (.fulfilled { status := 404, body := [] }),
          { CACHE_NAME := some [], TEMP := none, MANIFEST := none }) ∧
    fetchListener exEnv exNotFound exEmpty (exGet "missing-page") = (.declined, exEmpty) := by
  decide

/-- In a cache that does not exist no request has an entry. -/
theorem requestMatch_content_some (s : CacheStorage) (url : Str) (r : Response)
    (h : requestMatch s.content url = some r) : { s with CACHE_NAME := some s.content } = s := by
  obtain ⟨cn, t, m⟩ := s
  cases cn with
  | none => simp [CacheStorage.content, requestMatch] at h
  | some cache => rfl

/-- C8 (as amended): a `GET` request whose key is a key of the manifest (with a non-empty
checksum) other than "/" is served cache-first.  If content holds an entry for the request
(the URLs compared without their fragments), that entry is returned and the caches are
unchanged.  Otherwise a response of the network is returned as it is, and content gains a
copy of it, stored under the URL of the request, exactly when the response is ok and no
partial response (status 206), which the cache refuses; the entries of content are
unchanged otherwise. -/
theorem cache_first (env : Env) (net : Network) (s : CacheStorage) (request : Request)
    (c : Str)
    (hget : request.method = GET)
    (hkey : ownProp env.RESOURCES (fetchKey env.origin request.url) = some c)
    (hne : c ≠ [])
    (hroot : fetchKey env.origin request.url ≠ rootKey) :
    (∀ r, requestMatch s.content request.url = some r →
      fetchListener env net s request = (.respondWith (.fulfilled r), s)) ∧
    (∀ r, requestMatch s.content request.url = none → net request = .ok r →
      (fetchListener env net s request).1 = .respondWith (.fulfilled r) ∧
      (fetchListener env net s request).2.content
        = (if r.ok = true ∧ r.status ≠ 206 then s.content ++ [(request.url, r)]
           else s.content) ∧
      (fetchListener env net s request).2.TEMP = s.TEMP ∧
      (fetchListener env net s request).2.MANIFEST = s.MANIFEST) := by
  have ht := truthy_of_ownProp _ _ _ hkey hne
  constructor
  · intro r hr
    have hs := requestMatch_content_some s request.url r hr
    simp only [fetchListener, hget, ht, hroot, hr, ne_eq, not_true_eq_false, if_false,
      Bool.not_true, Bool.false_eq_true]
    rw [hs]
  · intro r hr hnet
    by_cases hok : r.ok = true
    · by_cases hp : r.status = 206
      · have hput := requestPut_refused s.content request.url r hp
        simp [fetchListener, hget, ht, hroot, hr, hnet, hok, hput, hp]
        rfl
      · have hput := (requestPut_of_requestMatch_none s.content request.url r hp hr).1
        simp [fetchListener, hget, ht, hroot, hr, hnet, hok, hput, hp]
        rfl
    · simp [fetchListener, hget, ht, hroot, hr, hnet, hok]
      rfl

/-- Witness of C8: `a.js` is fetched with status 200 and stored when content is empty. -/
theorem cache_first_witness :
    (exGet "a.js").method = GET ∧
    ownProp exEnv.RESOURCES (fetchKey exEnv.origin (exGet "a.js").url) = some "hash1".toList ∧
    fetchKey exEnv.origin (exGet "a.js").url ≠ rootKey ∧
    requestMatch exEmpty.content (exGet "a.js").url = none ∧
    (fetchListener exEnv exOnline exEmpty (exGet "a.js")).1
      = .respondWith (.fulfilled { status := 200, body := "fresh".toList }) ∧
    (fetchListener exEnv exOnline exEmpty (exGet "a.js")).2.content
      = [(exUrl "a.js", { status := 200, body := "fresh".toList })] :=
  have h := (cache_first exEnv exOnline exEmpty (exGet "a.js") "hash1".toList (by decide)
    (by decide) (by decide) (by decide)).2 { status := 200, body := "fresh".toList }
    (by decide) rfl
  ⟨by decide, by decide, by decide, by decide, h.1, h.2.1.trans (by decide)⟩

/-- Counterexample to C8 as stated: `a.js` is a key of the manifest `{"a.js": "hash1"}` and
content is empty; the network answers with status 206, which is ok, and the response is
returned, but content has gained no copy of it. -/
theorem ok_range_response_not_stored :
    (exGet "a.js").method = GET ∧
    ownProp exEnv.RESOURCES (fetchKey exEnv.origin (exGet "a.js").url) = some "hash1".toList ∧
    fetchKey exEnv.origin (exGet "a.js").url ≠ rootKey ∧
    requestMatch exEmpty.content (exGet "a.js").url = none ∧
    Response.ok { status := 206, body := "part".toList } = true ∧
    fetchListener exEnv exRange exEmpty (exGet "a.js")
      = (.respondWith (.fulfilled { status := 206, body := "part".toList }),
          { CACHE_NAME := some [], TEMP := none, MANIFEST := none }) := by
  decide

theorem ownProp_eq_none_iff (M : Manifest) (key : Str) :
    ownProp M key = none ↔ key ∉ Manifest.keys M := by
  induction M with
  | nil => simp [ownProp, Manifest.keys]
  | cons e rest ih =>
    obtain ⟨k, v⟩ := e
    have hkeys : Manifest.keys ((k, v) :: rest) = k :: Manifest.keys rest := rfl
    rw [hkeys, List.mem_cons, not_or, ← ih]
    cases hr : ownProp rest key with
    | some w => simp [ownProp, hr]
    | none =>
      by_cases hk : k = key
      · simp [ownProp, hr, hk]
      · have hk2 : ¬ key = k := fun h => hk h.symm
        simp [ownProp, hr, hk, hk2]

/-- For a manifest whose checksums are non-empty and a key that is no name inherited from
`Object.prototype`, the listener declines exactly the requests that are not `GET` and those
whose key is no key of the manifest. -/
theorem fetchListener_declined_iff_not_key (env : Env) (net : Network) (s : CacheStorage)
    (request : Request)
    (hsums : ∀ k c, ownProp env.RESOURCES k = some c → c ≠ [])
    (hproto : fetchKey env.origin request.url ∉ objectPrototype) :
    (fetchListener env net s request).1 = .declined ↔
      (request.method ≠ GET ∨ fetchKey env.origin request.url ∉ Manifest.keys env.RESOURCES) := by
  rw [fetchListener_declined_iff, ← ownProp_eq_none_iff]
  cases hp : ownProp env.RESOURCES (fetchKey env.origin request.url) with
  | none => simp [jsGet, hp, hproto, truthy]
  | some c => simp [jsGet, hp, truthy, hsums _ c hp]

/-! ## Keys of the `fetch` listener -/

theorem versionMark_eq : versionMark = ['?', 'v', '='] := rfl

theorem substring_origin (origin rest : Str) :
    substring (origin ++ "/".toList ++ rest) (origin.length + 1) = rest := by
  have h : (origin ++ "/".toList).length = origin.length + 1 := by simp
  unfold substring
  rw [← h, List.drop_left]

theorem indexOf_cons (c : Char) (t pat : Str) :
    indexOf (c :: t) pat
      = if pat <+: c :: t then 0 else if indexOf t pat = -1 then -1 else indexOf t pat + 1 := by
  rw [indexOf]

theorem splitHead_cons (c : Char) (t sep : Str) :
    splitHead (c :: t) sep = if sep <+: c :: t then [] else c :: splitHead t sep := by
  rw [splitHead]

theorem startsWith_hash_cons (c : Char) (t : Str) :
    startsWith (c :: t) "#".toList = decide ('#' = c) := by
  simp [startsWith, List.cons_prefix_cons]

theorem indexOf_ge (pat : Str) : ∀ s : Str, -1 ≤ indexOf s pat := by
  intro s
  induction s with
  | nil => unfold indexOf; split <;> omega
  | cons c t ih =>
    unfold indexOf
    split
    · omega
    · simp only
      split <;> omega

theorem indexOf_cons_absent (pat : Str) (c : Char) (t : Str)
    (h : indexOf (c :: t) pat = -1) : ¬ pat <+: c :: t ∧ indexOf t pat = -1 := by
  unfold indexOf at h
  by_cases hp : pat <+: c :: t
  · simp [hp] at h
  · simp only [hp, if_false] at h
    refine ⟨hp, ?_⟩
    by_cases hi : indexOf t pat = -1
    · exact hi
    · simp only [hi, if_false] at h
      have := indexOf_ge pat t
      omega

/-- The call `s.indexOf(pat)` gives `-1` exactly when `pat` does not occur in `s`. -/
theorem indexOf_eq_neg_one_iff (pat : Str) : ∀ s : Str, indexOf s pat = -1 ↔ ¬ pat <:+: s := by
  intro s
  induction s with
  | nil =>
    rw [List.infix_nil]
    unfold indexOf
    by_cases hp : pat = [] <;> simp [hp]
  | cons c t ih =>
    rw [List.infix_cons_iff, not_or, ← ih]
    constructor
    · exact indexOf_cons_absent pat c t
    · rintro ⟨hp, ht⟩
      rw [indexOf_cons, if_neg hp, if_pos ht]

theorem indexOf_append_mark (x : Str) :
    ∀ p : Str, indexOf (p ++ versionMark ++ x) versionMark ≠ -1 := by
  intro p
  induction p with
  | nil =>
    rw [versionMark_eq]
    simp [indexOf]
  | cons c t ih =>
    have hge := indexOf_ge versionMark (t ++ versionMark ++ x)
    have e : c :: t ++ versionMark ++ x = c :: (t ++ versionMark ++ x) := rfl
    rw [e, indexOf_cons]
    split <;> omega

theorem splitHead_append_mark (x : Str) :
    ∀ p : Str, indexOf p versionMark = -1 → splitHead (p ++ versionMark ++ x) versionMark = p := by
  intro p
  induction p with
  | nil =>
    intro _
    rw [versionMark_eq]
    simp [splitHead]
  | cons c t ih =>
    intro h
    obtain ⟨hp, ht⟩ := indexOf_cons_absent _ _ _ h
    have hnot : ¬ versionMark <+: c :: (t ++ versionMark ++ x) := by
      rw [versionMark_eq] at hp ⊢
      match t, hp with
      | [], _ => simp [List.cons_prefix_cons]
      | [a], _ => simp [List.cons_prefix_cons]
      | a :: b :: t2, hp =>
        simp only [List.cons_append, List.cons_prefix_cons, List.nil_prefix, and_true] at hp ⊢
        exact hp
    have e : c :: t ++ versionMark ++ x = c :: (t ++ versionMark ++ x) := rfl
    rw [e, splitHead_cons, if_neg hnot, ih ht]

/-- The key of a URL below the origin whose path has no version mark. -/
theorem fetchKey_plain (origin q : Str) (h : indexOf q versionMark = -1) :
    fetchKey origin (origin ++ "/".toList ++ q)
      = if q = [] ∨ startsWith q "#".toList = true then rootKey else q := by
  have hne : ¬ origin ++ "/".toList ++ q = origin := by
    intro heq
    have := congrArg List.length heq
    simp at this
  have hstart : startsWith (origin ++ "/".toList ++ q) (origin ++ "/#".toList)
      = startsWith q "#".toList := by
    have e1 : origin ++ "/".toList ++ q = origin ++ ('/' :: q) := by simp
    have e2 : origin ++ "/#".toList = origin ++ ('/' :: "#".toList) := by simp
    simp only [startsWith, e1, e2, List.prefix_append_right_inj, List.cons_prefix_cons, true_and]
  simp only [fetchKey, substring_origin, h, hne, hstart]
  by_cases hq : q = []
  · simp [hq]
  · by_cases hs : startsWith q "#".toList = true <;> simp [hq, hs]

/-- C6: for every origin and every fragment route, the `fetch` listener computes the key "/"
for the URLs `origin`, `origin/` and `origin/#route`. -/
theorem root_normalisation (origin route : Str) :
    fetchKey origin origin = rootKey ∧
    fetchKey origin (origin ++ "/".toList) = rootKey ∧
    fetchKey origin (origin ++ "/#".toList ++ route) = rootKey := by
  refine ⟨?_, ?_, ?_⟩
  · simp [fetchKey]
  · have h := fetchKey_plain origin [] (by decide)
    simpa using h
  · have hs : startsWith (origin ++ "/#".toList ++ route) (origin ++ "/#".toList) = true := by
      simp [startsWith]
    unfold fetchKey
    simp only [hs, Bool.or_true, Bool.true_or, if_true]

/-- C7: for every origin-relative path `p` that does not contain "?v=" and every value `x`,
the `fetch` listener computes for `origin/p?v=x` the key it computes for `origin/p`; and
nothing else is stripped: that key is `p` itself, or "/" when `p` is empty or a fragment. -/
theorem version_parameter_stripped (origin p x : Str) (h : ¬ versionMark <:+: p) :
    fetchKey origin (origin ++ "/".toList ++ p ++ versionMark ++ x)
      = fetchKey origin (origin ++ "/".toList ++ p) ∧
    fetchKey origin (origin ++ "/".toList ++ p)
      = (if p = [] ∨ startsWith p "#".toList = true then rootKey else p) := by
  have h := (indexOf_eq_neg_one_iff versionMark p).mpr h
  refine ⟨?_, fetchKey_plain origin p h⟩
  rw [fetchKey_plain origin p h]
  have hne : ¬ origin ++ "/".toList ++ p ++ versionMark ++ x = origin := by
    intro heq
    have := congrArg List.length heq
    simp at this
  have e0 : origin ++ "/".toList ++ p ++ versionMark ++ x
      = origin ++ "/".toList ++ (p ++ versionMark ++ x) := by simp
  have hstart : startsWith (origin ++ "/".toList ++ p ++ versionMark ++ x)
      (origin ++ "/#".toList) = startsWith (p ++ versionMark ++ x) "#".toList := by
    have e1 : origin ++ "/".toList ++ p ++ versionMark ++ x
        = origin ++ ('/' :: (p ++ versionMark ++ x)) := by simp
    have e2 : origin ++ "/#".toList = origin ++ ('/' :: "#".toList) := by simp
    simp only [startsWith, e1, e2, List.prefix_append_right_inj, List.cons_prefix_cons, true_and]
  have hidx : (indexOf (p ++ versionMark ++ x) versionMark != -1) = true := by
    simpa using indexOf_append_mark x p
  have hkey : substring (origin ++ "/".toList ++ p ++ versionMark ++ x) (origin.length + 1)
      = p ++ versionMark ++ x := by
    rw [e0, substring_origin]
  simp only [fetchKey, hkey, hidx, if_true, splitHead_append_mark x p h, hne, hstart]
  cases p with
  | nil => simp
  | cons c t =>
    have e : c :: t ++ versionMark ++ x = c :: (t ++ versionMark ++ x) := rfl
    rw [e, startsWith_hash_cons, startsWith_hash_cons]
    simp

/-- Witness of C7: `main.dart.js?v=123` has the key of `main.dart.js`. -/
theorem version_parameter_stripped_witness :
    ¬ versionMark <:+: "main.dart.js".toList ∧
    fetchKey exOrigin (exOrigin ++ "/".toList ++ "main.dart.js".toList ++ versionMark
        ++ "123".toList)
      = fetchKey exOrigin (exOrigin ++ "/".toList ++ "main.dart.js".toList) :=
  ⟨by decide,
    (version_parameter_stripped exOrigin "main.dart.js".toList "123".toList (by decide)).1⟩

/-- C9 (as amended): a `GET` request whose key is "/", a key of the manifest (with a
non-empty checksum), is served online-first.  If the network fetch succeeds, the fresh
response is returned; unless it is a partial response (status 206), which the cache
refuses and which leaves content unchanged, it is stored in content for that request, in
place of the entry the request had, the entries of other requests being kept.  If the fetch
fails and content holds an entry for the request (the URLs compared without their
fragments), that entry is returned and the caches are unchanged.  If it fails and nothing
is stored, the promise is rejected with the error of the network and the entries of
content are unchanged. -/
theorem online_first (env : Env) (net : Network) (s : CacheStorage) (request : Request)
    (c : Str)
    (hget : request.method = GET)
    (hroot : fetchKey env.origin request.url = rootKey)
    (hkey : ownProp env.RESOURCES rootKey = some c)
    (hne : c ≠ []) :
    (∀ r, net request = .ok r →
      (fetchListener env net s request).1 = .respondWith (.fulfilled r) ∧
      (fetchListener env net s request).2.content
        = (if r.status = 206 then s.content
           else requestDelete s.content request.url ++ [(request.url, r)]) ∧
      (r.status ≠ 206 →
        requestMatch (fetchListener env net s request).2.content request.url = some r ∧
        ∀ url, sameRequest request.url url = false →
          requestMatch (fetchListener env net s request).2.content url
            = requestMatch s.content url) ∧
      (fetchListener env net s request).2.TEMP = s.TEMP ∧
      (fetchListener env net s request).2.MANIFEST = s.MANIFEST) ∧
    (∀ e r, net request = .error e → requestMatch s.content request.url = some r →
      fetchListener env net s request = (.respondWith (.fulfilled r), s)) ∧
    (∀ e, net request = .error e → requestMatch s.content request.url = none →
      (fetchListener env net s request).1 = .respondWith (.rejected e) ∧
      (fetchListener env net s request).2.content = s.content ∧
      (fetchListener env net s request).2.TEMP = s.TEMP ∧
      (fetchListener env net s request).2.MANIFEST = s.MANIFEST) := by
  have ht := truthy_of_ownProp _ _ _ hkey hne
  have hrun : fetchListener env net s request = onlineFirst net s request := by
    simp [fetchListener, hget, hroot, ht]
  refine ⟨?_, ?_, ?_⟩
  · intro r hnet
    have hres : onlineFirst net s request
        = (.respondWith (.fulfilled r),
            { s with CACHE_NAME := some (requestPut s.content request.url r) }) := by
      simp [onlineFirst, hnet]
    have hcontent : (fetchListener env net s request).2.content
        = requestPut s.content request.url r := by
      rw [hrun, hres]
      rfl
    refine ⟨by rw [hrun, hres], ?_, ?_, by rw [hrun, hres], by rw [hrun, hres]⟩
    · rw [hcontent]
      by_cases hp : r.status = 206
      · rw [requestPut_refused _ _ _ hp, if_pos hp]
      · rw [requestPut_accepted _ _ _ hp, if_neg hp]
    · intro hp
      rw [hcontent]
      constructor
      · rw [requestMatch_requestPut _ _ _ _ hp, if_pos (sameRequest_self _)]
      · intro url hurl
        rw [requestMatch_requestPut _ _ _ _ hp]
        simp [hurl]
  · intro e r hnet hr
    have hs := requestMatch_content_some s request.url r hr
    rw [hrun]
    simp only [onlineFirst, hnet, hr]
    rw [hs]
  · intro e hnet hr
    have hres : onlineFirst net s request
        = (.respondWith (.rejected e), { s with CACHE_NAME := some s.content }) := by
      simp [onlineFirst, hnet, hr]
    rw [hrun, hres]
    exact ⟨rfl, rfl, rfl, rfl⟩

/-- Witness of C9: offline, a request for the route `origin/#/any/route` is answered with
the entry that content holds for `origin/`. -/
theorem online_first_witness :
    (exGet "#/any/route").method = GET ∧
    fetchKey exRootEnv.origin (exGet "#/any/route").url = rootKey ∧
    ownProp exRootEnv.RESOURCES rootKey = some "hash0".toList ∧
    requestMatch exRootState.content (exGet "#/any/route").url = some (exResponse "index") ∧
    fetchListener exRootEnv exOffline exRootState (exGet "#/any/route")
      = (.respondWith (.fulfilled (exResponse "index")), exRootState) :=
  ⟨by decide, by decide, by decide, by decide,
    (online_first exRootEnv exOffline exRootState (exGet "#/any/route") "hash0".toList
      (by decide) (by decide) (by decide) (by decide)).2.1 (.network 0) (exResponse "index")
      rfl (by decide)⟩

/-- Counterexample to C9 as stated: "/" is a key of the manifest
`{"/": "hash0", "a.js": "hash1"}` and content is empty; the network fetch for the origin
root succeeds with status 206 and the response is returned, but it is not stored in
content. -/
theorem range_root_response_not_stored :
    (exGet "").method = GET ∧
    fetchKey exRootEnv.origin (exGet "").url = rootKey ∧
    ownProp exRootEnv.RESOURCES rootKey = some "hash0".toList ∧
    fetchListener exRootEnv exRange exEmpty (exGet "")
      = (.respondWith (.fulfilled { status := 206, body := "part".toList }),
          { CACHE_NAME := some [], TEMP := none, MANIFEST := none }) ∧
    requestMatch (fetchListener exRootEnv exRange exEmpty (exGet "")).2.content
      (exGet "").url = none := by
  decide

/-- Online-first is the policy of the key "/" only: in the worker of the repository a request
for `/index.html` has the key `index.html` and is answered from content, the network not
being asked. -/
theorem index_html_served_cache_first :
    fetchKey exWorker.origin (exGet "index.html").url = "index.html".toList ∧
    fetchListener exWorker exOnline
        { CACHE_NAME := some [(exUrl "index.html", exResponse "cached")], TEMP := none,
          MANIFEST := none } (exGet "index.html")
      = (.respondWith (.fulfilled (exResponse "cached")),
          { CACHE_NAME := some [(exUrl "index.html", exResponse "cached")], TEMP := none,
            MANIFEST := none }) := by
  set_option maxRecDepth 100000 in decide

/-! ## A second activation -/

theorem mem_keys_copied (staging : Cache) (c : Cache) (u : Str)
    (h : u ∈ cacheKeys (copied staging (cacheKeys staging) c)) :
    u ∈ cacheKeys staging ∨ u ∈ cacheKeys c := by
  obtain ⟨r, hr⟩ := cacheMatch_of_mem_keys _ _ h
  rw [cacheMatch_copied _ _ _ _ (fun v hv => hv)] at hr
  by_cases hk : u ∈ cacheKeys staging
  · exact Or.inl hk
  · rw [if_neg hk] at hr
    exact Or.inr (mem_keys_of_cacheMatch _ _ _ hr)

theorem not_stale_of_mem_keys_pruned (env : Env) (oldManifest : Manifest) (c : Cache)
    (u : Str) (h : u ∈ cacheKeys (pruned env oldManifest (cacheKeys c) c)) :
    stale env oldManifest (activateKey env.origin u) = false := by
  obtain ⟨r, hr⟩ := cacheMatch_of_mem_keys _ _ h
  rw [cacheMatch_pruned] at hr
  by_cases hs : stale env oldManifest (activateKey env.origin u) = true
  · have hmem : u ∈ cacheKeys c := by
      by_cases hm : u ∈ cacheKeys c
      · exact hm
      · simp [hm, cacheMatch_none_of_not_mem _ _ hm] at hr
    simp [hmem, hs] at hr
  · simpa using hs

theorem truthy_of_not_stale (env : Env) (oldManifest : Manifest) (key : Str)
    (h : stale env oldManifest key = false) : truthy (jsGet env.RESOURCES key) = true := by
  simp only [stale, Bool.or_eq_false_iff, Bool.not_eq_false'] at h
  exact h.1

/-- C10 (as amended): when every staging entry has a path that passes the manifest test
`RESOURCES[key]` (as every manifest key with a non-empty checksum does), a second
activation with the same manifest, run directly on the caches that an activation without
exception left and itself without exception, leaves the caches, and so the content cache,
exactly as the first one left them.  Such a second activation exists: it is the one in
which no cache operation rejects. -/
theorem second_activation_keeps_content (env : Env) (s : CacheStorage)
    (tryFault catchFault tryFault2 catchFault2 : Option Nat)
    (hstaged : ∀ u ∈ cacheKeys s.staging,
      truthy (jsGet env.RESOURCES (activateKey env.origin u)) = true)
    (hok : (activate env s tryFault catchFault).caught = none)
    (hok2 : (activate env (activate env s tryFault catchFault).caches tryFault2
      catchFault2).caught = none) :
    (activate env (activate env s tryFault catchFault).caches tryFault2 catchFault2).caches
      = (activate env s tryFault catchFault).caches ∧
    (activate env (activate env s tryFault catchFault).caches none catchFault2).caught
      = none := by
  have hfirst : ∃ c1 : Cache,
      (activate env s tryFault catchFault).caches
        = { CACHE_NAME := some c1, TEMP := none, MANIFEST := some (some (.json env.RESOURCES)) } ∧
      ∀ u ∈ cacheKeys c1, truthy (jsGet env.RESOURCES (activateKey env.origin u)) = true := by
    rcases (activate_success env s tryFault catchFault hok).2 with ⟨_, h2⟩ | ⟨old, _, h2⟩
    · refine ⟨_, h2, ?_⟩
      intro u hu
      rcases mem_keys_copied _ _ _ hu with h | h
      · exact hstaged u h
      · cases h
    · refine ⟨_, h2, ?_⟩
      intro u hu
      rcases mem_keys_copied _ _ _ hu with h | h
      · exact hstaged u h
      · exact truthy_of_not_stale env old _ (not_stale_of_mem_keys_pruned env old _ u h)
  obtain ⟨c1, hc1, hkeys⟩ := hfirst
  rw [hc1] at hok2 ⊢
  have hsnap : (CacheStorage.mk (some c1) none
      (some (some (.json env.RESOURCES)))).snapshot = some (.json env.RESOURCES) := rfl
  constructor
  · rcases (activate_success env _ tryFault2 catchFault2 hok2).2 with ⟨h1, _⟩ | ⟨old, h1, h2⟩
    · rw [hsnap] at h1; cases h1
    · rw [hsnap] at h1
      cases h1
      rw [h2]
      simp only [upgradedCaches, CacheStorage.content, CacheStorage.staging, Option.getD_some,
        Option.getD_none, cacheKeys, List.map_nil, copied]
      have hp := pruned_eq_self env env.RESOURCES (cacheKeys c1) c1 (by
        intro u hu
        rw [stale_same_manifest, hkeys u hu]
        rfl)
      simp only [cacheKeys] at hp
      rw [hp]
  · rw [activate_upgrade env _ catchFault2 env.RESOURCES hsnap]

/-- Witness of C10: after the first install of `a.js` a second activation changes nothing. -/
theorem second_activation_keeps_content_witness :
    (activate exEnv exInstallState none none).caught = none ∧
    (activate exEnv (activate exEnv exInstallState none none).caches none none).caught = none ∧
    (activate exEnv (activate exEnv exInstallState none none).caches none none).caches
      = (activate exEnv exInstallState none none).caches :=
  ⟨by decide, by decide,
    (second_activation_keeps_content exEnv exInstallState none none none none (by decide)
      (by decide) (by decide)).1⟩

/-- Counterexample to C10 as stated: the first activation copies the staged `x.js`, which is
no key of the manifest `{"a.js": "hash1"}`, into content; a second activation with the same
manifest deletes it again. -/
theorem second_activation_deletes_foreign_entry :
    (activate exEnv exForeignState none none).caught = none ∧
    (activate exEnv exForeignState none none).caches.CACHE_NAME
      = some [(exUrl "x.js", exResponse "X")] ∧
    (activate exEnv exForeignState none none).caches.TEMP = none ∧
    (activate exEnv (activate exEnv exForeignState none none).caches none none).caught
      = none ∧
    (activate exEnv (activate exEnv exForeignState none none).caches none none).caches.CACHE_NAME
      = some [] := by
  decide

/-! ## `downloadOffline` -/

theorem mem_firstOccurrences (k : Str) : ∀ l : List Str, k ∈ firstOccurrences l ↔ k ∈ l := by
  intro l
  induction l with
  | nil => simp [firstOccurrences]
  | cons j rest ih =>
    simp only [firstOccurrences, List.mem_cons, List.mem_filter, ih, decide_eq_true_eq]
    by_cases h : k = j
    · simp [h]
    · simp [h]

theorem nodup_firstOccurrences : ∀ l : List Str, (firstOccurrences l).Nodup := by
  intro l
  induction l with
  | nil => simp [firstOccurrences]
  | cons j rest ih =>
    simp only [firstOccurrences, List.nodup_cons, List.mem_filter, decide_eq_true_eq]
    exact ⟨fun h => h.2 rfl, ih.filter _⟩

theorem mem_objectKeys (M : Manifest) (k : Str) : k ∈ objectKeys M ↔ k ∈ Manifest.keys M :=
  mem_firstOccurrences k _

theorem mem_currentContent (origin : Str) (c : Cache) (k : Str) :
    k ∈ currentContent origin c ↔ ∃ u ∈ cacheKeys c, activateKey origin u = k := by
  simp [currentContent]

/-- A path is in `resources` exactly when it is a key of the manifest, no content entry has
it as its key, and it is no name inherited from `Object.prototype`. -/
theorem mem_resources (env : Env) (c : Cache) (k : Str) :
    k ∈ resources env c ↔
      (k ∈ Manifest.keys env.RESOURCES ∧
        (¬ ∃ u ∈ cacheKeys c, activateKey env.origin u = k) ∧ k ∉ objectPrototype) := by
  simp only [resources, List.mem_filter, mem_objectKeys, currentContentHas, Bool.not_eq_true',
    Bool.or_eq_false_iff, decide_eq_false_iff_not, mem_currentContent]

theorem nodup_resources (env : Env) (c : Cache) : (resources env c).Nodup :=
  (nodup_firstOccurrences _).filter _

theorem fetchAll_ok_of_all (net : Network) (resolve : Str → Str) :
    ∀ paths : List Str,
      (∀ k ∈ paths, ∃ r, net { method := GET, url := resolve k } = .ok r ∧ r.ok = true) →
      ∃ entries, fetchAll net resolve paths = .ok entries := by
  intro paths
  induction paths with
  | nil => intro _; exact ⟨[], rfl⟩
  | cons p rest ih =>
    intro h
    obtain ⟨r, hr, hok⟩ := h p (List.mem_cons_self _ _)
    obtain ⟨entries, he⟩ := ih (fun k hk => h k (List.mem_cons_of_mem _ hk))
    exact ⟨(resolve p, r) :: entries, by simp [fetchAll, hr, hok, he]⟩

theorem fetchAll_error_of_mem (net : Network) (resolve : Str → Str) :
    ∀ (paths : List Str) (k : Str) (e : Err), k ∈ paths →
      net { method := GET, url := resolve k } = .error e →
      ∃ e2, fetchAll net resolve paths = .error e2 := by
  intro paths
  induction paths with
  | nil => intro k e hk _; cases hk
  | cons p rest ih =>
    intro k e hk hnet
    cases hp : net { method := GET, url := resolve p } with
    | error e2 => exact ⟨e2, by simp [fetchAll, hp]⟩
    | ok r =>
      by_cases hok : r.ok = true
      · have hk2 : k ∈ rest := by
          rcases List.mem_cons.mp hk with h | h
          · rw [h, hp] at hnet; cases hnet
          · exact h
        obtain ⟨e2, he2⟩ := ih k e hk2 hnet
        exact ⟨e2, by simp [fetchAll, hp, hok, he2]⟩
      · exact ⟨.script, by simp [fetchAll, hp, hok]⟩

theorem fetchAll_error_single (net : Network) (resolve : Str → Str) :
    ∀ (paths : List Str) (k : Str) (e : Err), k ∈ paths →
      net { method := GET, url := resolve k } = .error e →
      (∀ q ∈ paths, q ≠ k →
        ∃ r, net { method := GET, url := resolve q } = .ok r ∧ r.ok = true) →
      fetchAll net resolve paths = .error e := by
  intro paths
  induction paths with
  | nil => intro k e hk _ _; cases hk
  | cons p rest ih =>
    intro k e hk hnet hrest
    by_cases hpk : p = k
    · subst hpk
      simp [fetchAll, hnet]
    · obtain ⟨r, hr, hok⟩ := hrest p (List.mem_cons_self _ _) hpk
      have hk2 : k ∈ rest := by
        rcases List.mem_cons.mp hk with h | h
        · exact absurd h.symm hpk
        · exact h
      have := ih k e hk2 hnet (fun q hq hqk => hrest q (List.mem_cons_of_mem _ hq) hqk)
      simp [fetchAll, hr, hok, this]

theorem fetchAll_urls (net : Network) (resolve : Str → Str) :
    ∀ (paths : List Str) (entries : List (Str × Response)),
      fetchAll net resolve paths = .ok entries → entries.map Prod.fst = paths.map resolve := by
  intro paths
  induction paths with
  | nil =>
    intro entries h
    simp only [fetchAll, Except.ok.injEq] at h
    rw [← h]
    rfl
  | cons p rest ih =>
    intro entries h
    cases hp : net { method := GET, url := resolve p } with
    | error e => simp [fetchAll, hp] at h
    | ok r =>
      by_cases hok : r.ok = true
      · cases hr : fetchAll net resolve rest with
        | error e => simp [fetchAll, hp, hok, hr] at h
        | ok es =>
          simp only [fetchAll, hp, hok, hr, if_true, Except.ok.injEq] at h
          rw [← h, List.map_cons, List.map_cons, ih es hr]
      · simp [fetchAll, hp, hok] at h

theorem mem_keys_cachePut (c : Cache) (url : Str) (r : Response) (u : Str) :
    u ∈ cacheKeys (cachePut c url r) ↔ u ∈ cacheKeys c ∨ u = url := by
  constructor
  · intro h
    obtain ⟨r2, hr2⟩ := cacheMatch_of_mem_keys _ _ h
    rw [cacheMatch_put] at hr2
    by_cases hu : url = u
    · exact Or.inr hu.symm
    · rw [if_neg hu] at hr2
      exact Or.inl (mem_keys_of_cacheMatch _ _ _ hr2)
  · intro h
    by_cases hu : url = u
    · exact mem_keys_of_cacheMatch _ _ r (by rw [cacheMatch_put, if_pos hu])
    · rcases h with h | h
      · obtain ⟨r2, hr2⟩ := cacheMatch_of_mem_keys _ _ h
        exact mem_keys_of_cacheMatch _ _ r2 (by rw [cacheMatch_put, if_neg hu, hr2])
      · exact absurd h.symm hu

theorem mem_keys_putAll :
    ∀ (entries : List (Str × Response)) (c : Cache) (u : Str),
      u ∈ cacheKeys (putAll entries c) ↔ u ∈ cacheKeys c ∨ u ∈ entries.map Prod.fst := by
  intro entries
  induction entries with
  | nil => intro c u; simp [putAll]
  | cons e rest ih =>
    intro c u
    obtain ⟨url, r⟩ := e
    simp only [putAll, ih, mem_keys_cachePut, List.map_cons, List.mem_cons]
    tauto

/-- The keys of the manifest of the repository are no names inherited from
`Object.prototype`. -/
theorem RESOURCES_keys_own : ∀ k ∈ Manifest.keys RESOURCES, k ∉ objectPrototype := by
  set_option maxRecDepth 100000 in decide

/-- A worker served from the root of the origin stores a manifest path of the repository
under a URL whose origin-relative part is that path. -/
theorem RESOURCES_keys_resolve :
    ∀ k ∈ Manifest.keys RESOURCES, activateKey exOrigin (rootResolve exOrigin k) = k := by
  set_option maxRecDepth 100000 in decide

/-- C11: for a manifest none of whose keys is a name inherited from `Object.prototype`, as
the manifest of the repository is, and whatever the content cache holds, `downloadOffline`
requests exactly the manifest keys that no content entry has as its key (the
origin-relative URL, the empty path read as "/"), each once.  When a manifest path is
stored under a URL with that path as its origin-relative part and the batch succeeds, every
manifest key is the key of a content entry afterwards; the batch succeeds when every
requested fetch gives an ok response.  When a requested fetch fails, the call is rejected
and the entries of content are unchanged, and it is rejected with the error of that fetch
when the other requests are answered.  The `message` listener runs `downloadOffline` on
the command `"downloadOffline"`. -/
theorem download_offline (env : Env) (resolve : Str → Str) (net : Network)
    (s : CacheStorage)
    (hproto : ∀ k ∈ Manifest.keys env.RESOURCES, k ∉ objectPrototype) :
    (∀ k, k ∈ resources env s.content ↔
      (k ∈ Manifest.keys env.RESOURCES ∧
        ¬ ∃ u ∈ cacheKeys s.content, activateKey env.origin u = k)) ∧
    (resources env s.content).Nodup ∧
    ((∀ k ∈ Manifest.keys env.RESOURCES, activateKey env.origin (resolve k) = k) →
      (downloadOffline env resolve net s).1 = .fulfilled () →
      ∀ k ∈ Manifest.keys env.RESOURCES,
        ∃ u ∈ cacheKeys (downloadOffline env resolve net s).2.content,
          activateKey env.origin u = k) ∧
    ((∀ k ∈ resources env s.content,
        ∃ r, net { method := GET, url := resolve k } = .ok r ∧ r.ok = true) →
      (downloadOffline env resolve net s).1 = .fulfilled ()) ∧
    (∀ k e, k ∈ resources env s.content →
      net { method := GET, url := resolve k } = .error e →
      (∃ e2, (downloadOffline env resolve net s).1 = .rejected e2) ∧
      (downloadOffline env resolve net s).2.content = s.content ∧
      ((∀ q ∈ resources env s.content, q ≠ k →
          ∃ r, net { method := GET, url := resolve q } = .ok r ∧ r.ok = true) →
        (downloadOffline env resolve net s).1 = .rejected e)) ∧
    messageListener env resolve net s "downloadOffline".toList
      = (downloadOffline env resolve net s).2 := by
  have hmem : ∀ k, k ∈ resources env s.content ↔
      (k ∈ Manifest.keys env.RESOURCES ∧
        ¬ ∃ u ∈ cacheKeys s.content, activateKey env.origin u = k) := by
    intro k
    rw [mem_resources]
    constructor
    · exact fun h => ⟨h.1, h.2.1⟩
    · exact fun h => ⟨h.1, h.2, hproto k h.1⟩
  refine ⟨hmem, nodup_resources env s.content, ?_, ?_, ?_, ?_⟩
  · intro hresolve hdone k hk
    cases hf : fetchAll net resolve (resources env s.content) with
    | error e => simp [downloadOffline, addAll, hf] at hdone
    | ok entries =>
      have hurls := fetchAll_urls net resolve _ _ hf
      have hres : (downloadOffline env resolve net s).2.content = putAll entries s.content := by
        simp [downloadOffline, addAll, hf]
        rfl
      rw [hres]
      by_cases hreq : k ∈ resources env s.content
      · refine ⟨resolve k, ?_, hresolve k hk⟩
        rw [mem_keys_putAll, hurls]
        exact Or.inr (List.mem_map_of_mem _ hreq)
      · have hex : ∃ u ∈ cacheKeys s.content, activateKey env.origin u = k := by
          by_contra hno
          exact hreq ((hmem k).mpr ⟨hk, hno⟩)
        obtain ⟨u, hu, huk⟩ := hex
        refine ⟨u, ?_, huk⟩
        rw [mem_keys_putAll]
        exact Or.inl hu
  · intro hall
    obtain ⟨entries, he⟩ := fetchAll_ok_of_all net resolve _ hall
    simp [downloadOffline, addAll, he]
  · intro k e hk hnet
    obtain ⟨e2, he2⟩ := fetchAll_error_of_mem net resolve _ k e hk hnet
    refine ⟨⟨e2, by simp [downloadOffline, addAll, he2]⟩, ?_, ?_⟩
    · simp [downloadOffline, addAll, he2]
      rfl
    · intro hothers
      have := fetchAll_error_single net resolve _ k e hk hnet hothers
      simp [downloadOffline, addAll, this]
  · simp [messageListener]

/-- Witness of C11: with nothing cached and every fetch answered with status 200, the worker
of the repository, served from the root of its origin, ends with every manifest key
present in content. -/
theorem download_offline_witness :
    (∀ k ∈ Manifest.keys exWorker.RESOURCES, k ∉ objectPrototype) ∧
    (∀ k ∈ Manifest.keys exWorker.RESOURCES,
      activateKey exWorker.origin (rootResolve exOrigin k) = k) ∧
    (downloadOffline exWorker (rootResolve exOrigin) exOnline exEmpty).1 = .fulfilled () ∧
    ∀ k ∈ Manifest.keys exWorker.RESOURCES,
      ∃ u ∈ cacheKeys (downloadOffline exWorker (rootResolve exOrigin) exOnline exEmpty).2.content,
        activateKey exWorker.origin u = k :=
  have h := download_offline exWorker (rootResolve exOrigin) exOnline exEmpty
    RESOURCES_keys_own
  have hdone := h.2.2.2.1 (fun _ _ => ⟨_, rfl, by decide⟩)
  ⟨RESOURCES_keys_own, RESOURCES_keys_resolve, hdone,
    h.2.2.1 RESOURCES_keys_resolve hdone⟩

/-! ## Requests with a version parameter -/

theorem mem_keys_of_ownProp (M : Manifest) (key c : Str) (h : ownProp M key = some c) :
    key ∈ Manifest.keys M := by
  by_contra hno
  rw [(ownProp_eq_none_iff M key).mpr hno] at h
  cases h

theorem objectPrototype_plain : ∀ n ∈ objectPrototype, ¬ versionMark <:+: n := by
  decide

/-- The keys of the manifest of the repository contain no version parameter. -/
theorem RESOURCES_keys_plain : ∀ k ∈ Manifest.keys RESOURCES, ¬ versionMark <:+: k := by
  set_option maxRecDepth 100000 in decide

theorem fetchKey_versionedUrl (origin p x : Str) (h : ¬ versionMark <:+: p) :
    fetchKey origin (versionedUrl origin p x)
      = if p = [] ∨ startsWith p "#".toList = true then rootKey else p := by
  have h := (indexOf_eq_neg_one_iff versionMark p).mpr h
  unfold versionedUrl
  have hne : ¬ origin ++ "/".toList ++ p ++ versionMark ++ x = origin := by
    intro heq
    have := congrArg List.length heq
    simp at this
  have e0 : origin ++ "/".toList ++ p ++ versionMark ++ x
      = origin ++ "/".toList ++ (p ++ versionMark ++ x) := by simp
  have hstart : startsWith (origin ++ "/".toList ++ p ++ versionMark ++ x)
      (origin ++ "/#".toList) = startsWith (p ++ versionMark ++ x) "#".toList := by
    have e1 : origin ++ "/".toList ++ p ++ versionMark ++ x
        = origin ++ ('/' :: (p ++ versionMark ++ x)) := by simp
    have e2 : origin ++ "/#".toList = origin ++ ('/' :: "#".toList) := by simp
    simp only [startsWith, e1, e2, List.prefix_append_right_inj, List.cons_prefix_cons, true_and]
  have hidx : (indexOf (p ++ versionMark ++ x) versionMark != -1) = true := by
    simpa using indexOf_append_mark x p
  have hkey : substring (origin ++ "/".toList ++ p ++ versionMark ++ x) (origin.length + 1)
      = p ++ versionMark ++ x := by
    rw [e0, substring_origin]
  simp only [fetchKey, hkey, hidx, if_true, splitHead_append_mark x p h, hne, hstart]
  cases p with
  | nil => simp
  | cons c t =>
    have e : c :: t ++ versionMark ++ x = c :: (t ++ versionMark ++ x) := rfl
    rw [e, startsWith_hash_cons, startsWith_hash_cons]
    simp

theorem activateKey_versionedUrl (origin p x : Str) :
    activateKey origin (versionedUrl origin p x) = p ++ versionMark ++ x := by
  have e0 : origin ++ "/".toList ++ p ++ versionMark ++ x
      = origin ++ "/".toList ++ (p ++ versionMark ++ x) := by simp
  have hne : ¬ p ++ versionMark ++ x = [] := by
    rw [versionMark_eq]
    simp
  unfold activateKey versionedUrl
  rw [e0, substring_origin]
  simp only [hne, if_false]

/-- A key with a version parameter is stale when no key of the manifest has one. -/
theorem stale_versioned (env : Env) (oldManifest : Manifest) (p x : Str)
    (hplain : ∀ k ∈ Manifest.keys env.RESOURCES, ¬ versionMark <:+: k) :
    stale env oldManifest (p ++ versionMark ++ x) = true := by
  have hin : versionMark <:+: p ++ versionMark ++ x := ⟨p, x, rfl⟩
  apply stale_absent
  · rw [ownProp_eq_none_iff]
    exact fun hmem => hplain _ hmem hin
  · exact fun hmem => objectPrototype_plain _ hmem hin

/-- A `GET` request that passes the manifest test, has no entry in content and is answered
by the network with an ok response: the response is returned and `put` is called for it,
which stores it under the URL of the request unless it is a partial response. -/
theorem fetchListener_stores (env : Env) (net : Network) (s : CacheStorage)
    (request : Request) (r : Response)
    (hget : request.method = GET)
    (htest : truthy (jsGet env.RESOURCES (fetchKey env.origin request.url)) = true)
    (hmiss : requestMatch s.content request.url = none)
    (hnet : net request = .ok r) (hok : r.ok = true) :
    fetchListener env net s request
      = (.respondWith (.fulfilled r),
          { s with CACHE_NAME := some (requestPut s.content request.url r) }) ∧
    (r.status ≠ 206 → requestPut s.content request.url r = cachePut s.content request.url r) := by
  refine ⟨?_, fun hp => (requestPut_of_requestMatch_none _ _ _ hp hmiss).2⟩
  by_cases hroot : fetchKey env.origin request.url = rootKey
  · have htest2 := htest
    rw [hroot] at htest2
    simp [fetchListener, hget, htest2, hroot, onlineFirst, hnet]
  · simp [fetchListener, hget, htest, hroot, hmiss, hnet, hok]

/-- C12: the `fetch` listener and the `activate` listener compute different keys for a
request with a version parameter.  For a manifest whose keys contain no "?v=", as the
manifest of the repository, and every key `p` of it (a non-empty path that is no fragment,
with a non-empty checksum) and every value `x`: the `fetch` listener looks the manifest up
under `p` and stores the ok response of the network under the full URL `origin/p?v=x`
(when content has no entry for the request, and unless the response is a partial one,
which the cache refuses), whereas `activate` and `downloadOffline` compute the key `p?v=x` for that entry.  Hence an
upgrade activation that threw no exception deletes a content entry stored for
`origin/p?v=x` in its diff, whatever the previous manifest, so also when the checksum of `p`
is unchanged; afterwards content holds for that request only what staging held for it. -/
theorem versioned_entry_deleted (env : Env) (net : Network) (s : CacheStorage)
    (tryFault catchFault : Option Nat) (oldManifest : Manifest) (p x c : Str) (r : Response)
    (hkey : ownProp env.RESOURCES p = some c) (hne : c ≠ [])
    (hplain : ∀ k ∈ Manifest.keys env.RESOURCES, ¬ versionMark <:+: k)
    (hpath : p ≠ []) (hfragment : startsWith p "#".toList = false) :
    fetchKey env.origin (versionedUrl env.origin p x) = p ∧
    activateKey env.origin (versionedUrl env.origin p x) = p ++ versionMark ++ x ∧
    currentContent env.origin [(versionedUrl env.origin p x, r)] = [p ++ versionMark ++ x] ∧
    (requestMatch s.content (versionedUrl env.origin p x) = none →
      net { method := GET, url := versionedUrl env.origin p x } = .ok r → r.ok = true →
      fetchListener env net s { method := GET, url := versionedUrl env.origin p x }
        = (.respondWith (.fulfilled r),
            { s with
              CACHE_NAME := some (requestPut s.content (versionedUrl env.origin p x) r) }) ∧
      (r.status ≠ 206 →
        requestPut s.content (versionedUrl env.origin p x) r
          = cachePut s.content (versionedUrl env.origin p x) r)) ∧
    (s.snapshot = some (.json oldManifest) →
      (activate env s tryFault catchFault).caught = none →
      versionedUrl env.origin p x ∈ cacheKeys s.content →
      cacheMatch (pruned env oldManifest (cacheKeys s.content) s.content)
          (versionedUrl env.origin p x) = none ∧
      cacheMatch (activate env s tryFault catchFault).caches.content
          (versionedUrl env.origin p x)
        = cacheMatch s.staging (versionedUrl env.origin p x)) := by
  have hp : ¬ versionMark <:+: p := hplain p (mem_keys_of_ownProp _ _ _ hkey)
  have hfetch : fetchKey env.origin (versionedUrl env.origin p x) = p := by
    rw [fetchKey_versionedUrl _ _ _ hp, if_neg]
    rintro (h | h)
    · exact hpath h
    · rw [hfragment] at h
      cases h
  have hact := activateKey_versionedUrl env.origin p x
  have hstale : stale env oldManifest (activateKey env.origin (versionedUrl env.origin p x))
      = true := by
    rw [hact]
    exact stale_versioned env oldManifest p x hplain
  refine ⟨hfetch, hact, ?_, ?_, ?_⟩
  · simp [currentContent, cacheKeys, hact]
  · intro hmiss hnet hok
    exact fetchListener_stores env net s _ r rfl
      (by rw [hfetch]; exact truthy_of_ownProp _ _ _ hkey hne) hmiss hnet hok
  · intro hsnap hdone hmem
    constructor
    · rw [cacheMatch_pruned]
      simp [hmem, hstale]
    · exact stale_entry_replaced env s tryFault catchFault oldManifest _ hdone hsnap hmem hstale

/-- Witness of C12: in the worker of the repository, the entry stored for
`main.dart.js?v=123` is gone after an upgrade activation with an unchanged manifest. -/
theorem versioned_entry_deleted_witness :
    ownProp exWorker.RESOURCES "main.dart.js".toList
      = some "479fd7c054e6348f046582950a62b130".toList ∧
    (∀ k ∈ Manifest.keys exWorker.RESOURCES, ¬ versionMark <:+: k) ∧
    exVersionedState.snapshot = some (.json exWorker.RESOURCES) ∧
    (activate exWorker exVersionedState none none).caught = none ∧
    versionedUrl exOrigin "main.dart.js".toList "123".toList ∈ cacheKeys exVersionedState.content ∧
    cacheMatch (activate exWorker exVersionedState none none).caches.content
        (versionedUrl exOrigin "main.dart.js".toList "123".toList) = none :=
  have hown : ownProp exWorker.RESOURCES "main.dart.js".toList
      = some "479fd7c054e6348f046582950a62b130".toList := by
    set_option maxRecDepth 100000 in decide
  have hdone : (activate exWorker exVersionedState none none).caught = none := by
    rw [activate_upgrade exWorker exVersionedState none RESOURCES rfl]
  have h := (versioned_entry_deleted exWorker exOffline exVersionedState none none RESOURCES
    "main.dart.js".toList "123".toList "479fd7c054e6348f046582950a62b130".toList
    (exResponse "main") hown (by decide) RESOURCES_keys_plain (by decide)
    (by decide)).2.2.2.2 rfl hdone (by decide)
  ⟨hown, RESOURCES_keys_plain, rfl, hdone, by decide, h.2⟩

end ServiceWorker
